import Mathlib

/-!
# gevt: event dispatcher

A shallow embedding of `event.go` and `gevt.go` and theorems about the event
payload, the subscription registry and the two publish methods.

Modelling conventions
* A Go `map[K]V` is a partial function `K → Option V`; `none` means that the key
  has no entry.  An entry holding an empty slice is `some []`.
* A `Handler` interface value is either `nil` or a reference with an identity;
  Go's `==` on handlers is equality of that identity (handlers are comparable
  values, as the pointers used throughout the tests are).
* The mutex is not modelled: every operation is one atomic step on the
  dispatcher state.
* Handlers are state transformers on an arbitrary world `σ` that either return
  or panic; panics are explicit values that travel up the call chain until a
  `recover` stops them.  A handler that never comes back (it blocks, or calls
  back into the dispatcher that holds its mutex) is outside the model.
* A panic value is what `recover()` yields while panicking, which is never nil
  (a `panic(nil)` arrives as a `*runtime.PanicNilError` since Go 1.21).
* A logger is a sink: `Printf` appends one report to the output and returns.
* The goroutines of `Publish` run to their end one at a time, in any order: a
  schedule picks which of the running goroutines finishes next.
-/

namespace gevt

/-! ## event.go -/

/-- A Go `interface{}` value stored in an event payload. -/
inductive Value where
  | nil
  | int (n : Int)
  | str (s : String)
  deriving DecidableEq, Repr

/-- The type `EventData`, a `map[string]interface{}`. -/
abbrev EventData := String → Option Value

/-- The struct `Event`; `data = none` is the nil map. -/
structure Event where
  tag : String
  data : Option EventData

/-- The constructor `NewEvent`. -/
def NewEvent (tag : String) (data : Option EventData) : Event :=
  { tag := tag, data := data }

/-- The method `Event.Tag`. -/
def Event.Tag (e : Event) : String := e.tag

/-- The method `Event.Data`. -/
def Event.Data (e : Event) : Option EventData := e.data

/-- Reading a Go map: a nil map and a missing key both give the zero value and `ok = false`. -/
def EventData.lookup (data : Option EventData) (key : String) : Option Value :=
  match data with
  | none => none
  | some m => m key

/-- The method `Event.Get`: `e.data[key]`, the nil interface when the key is absent. -/
def Event.Get (e : Event) (key : String) : Value :=
  match EventData.lookup e.data key with
  | some v => v
  | none => Value.nil

/-- The method `Event.Has`: the `ok` of `_, ok := e.data[key]`. -/
def Event.Has (e : Event) (key : String) : Bool :=
  (EventData.lookup e.data key).isSome

/-- The method `Event.Set`: allocate the map when it is nil, then store `val` under `key`. -/
def Event.Set (e : Event) (key : String) (val : Value) : Event :=
  let data : EventData :=
    match e.data with
    | none => fun _ => none
    | some m => m
  { e with data := some (fun k => if k = key then some val else data k) }

/-! ## gevt.go: handlers, panics and the logger -/

/-- A value of the interface type `Handler`: the nil interface or a reference. -/
inductive Handler where
  | nil
  | ref (id : Nat)
  deriving DecidableEq, Repr

/-- The value `recover()` yields for a panicking goroutine: the runtime error of a
method call on a nil interface, or the value a handler passed to `panic`. -/
inductive PanicValue where
  | nilDereference
  | value (v : String)
  deriving DecidableEq, Repr

/-- How a call ends: it returns, or it panics with a value. -/
inductive Outcome where
  | returned
  | panicked (v : PanicValue)
  deriving DecidableEq, Repr

/-- A `*log.Logger`, identified by its address. -/
abbrev Logger := Nat

/-- The arguments of one `Printf` call made by `dispatcher.log`. -/
structure Report where
  fmt : String
  handler : Handler
  event : Event
  err : PanicValue

/-- One entered call of `HandleEvent`, with the way it ended. -/
structure Invocation where
  handler : Handler
  event : Event
  outcome : Outcome

/-- What the handlers do: the method `HandleEvent` of each handler reference, as a
transformer of the world `σ` together with the way the call ends. -/
structure Handlers (σ : Type) where
  handle : Nat → Event → σ → σ × Outcome

/-- Everything outside the dispatcher that a publish touches: the handlers' world,
the lines written to loggers, and the record of handler calls made so far. -/
structure Runtime (σ : Type) where
  world : σ
  output : List (Logger × Report)
  invocations : List Invocation

/-- The struct `dispatcher` (without its mutex). -/
structure dispatcher where
  subscribers : String → Option (List Handler)
  logger : Option Logger

/-- Reading `d.subscribers[tag]`: the nil (empty) slice when the tag has no entry. -/
def dispatcher.get (d : dispatcher) (tag : String) : List Handler :=
  match d.subscribers tag with
  | some s => s
  | none => []

/-- Writing `d.subscribers[tag] = s`. -/
def dispatcher.put (d : dispatcher) (tag : String) (s : List Handler) : dispatcher :=
  { d with subscribers := fun t => if t = tag then some s else d.subscribers t }

/-- The statement `delete(d.subscribers, tag)`. -/
def dispatcher.delete (d : dispatcher) (tag : String) : dispatcher :=
  { d with subscribers := fun t => if t = tag then none else d.subscribers t }

/-- The constructor `NewDispatcher`: an empty map and no logger. -/
def NewDispatcher : dispatcher :=
  { subscribers := fun _ => none, logger := none }

/-- The method `WithLogger`. -/
def dispatcher.WithLogger (d : dispatcher) (logger : Option Logger) : dispatcher :=
  { d with logger := logger }

/-- The method `subscribe`: ignore nil, ignore a handler already in the tag's
sequence, otherwise append. -/
def dispatcher.subscribe (d : dispatcher) (tag : String) (handler : Handler) : dispatcher :=
  if handler = Handler.nil then d
  else if (d.get tag).any (fun h => h == handler) then d
  else d.put tag (d.get tag ++ [handler])

/-- The method `Subscribe`: nothing for an empty argument list; otherwise make sure
the tag has an entry and subscribe the handlers one by one. -/
def dispatcher.Subscribe (d : dispatcher) (tag : String) (handlers : List Handler) : dispatcher :=
  if handlers.length = 0 then d
  else
    let d1 := match d.subscribers tag with
      | some _ => d
      | none => d.put tag []
    handlers.foldl (fun acc h => acc.subscribe tag h) d1

/-- The method `unsubscribe`: at the first index `i` holding the handler, store
`append(s[:i], s[i+1:]...)`; nothing when the handler is not found. -/
def dispatcher.unsubscribe (d : dispatcher) (tag : String) (handler : Handler) : dispatcher :=
  let s := d.get tag
  match s.findIdx? (fun h => h == handler) with
  | some i => d.put tag (s.take i ++ s.drop (i + 1))
  | none => d

/-- The method `Unsubscribe`: delete the tag's entry when no handler is given,
otherwise unsubscribe the handlers one by one. -/
def dispatcher.Unsubscribe (d : dispatcher) (tag : String) (handlers : List Handler) : dispatcher :=
  if handlers.length = 0 then d.delete tag
  else handlers.foldl (fun acc h => acc.unsubscribe tag h) d

/-- The method `UnsubscribeAll`: a fresh map when no tag is given, otherwise delete
each named tag. -/
def dispatcher.UnsubscribeAll (d : dispatcher) (tags : List String) : dispatcher :=
  if tags.length = 0 then { d with subscribers := fun _ => none }
  else tags.foldl (fun acc tag => acc.delete tag) d

/-- The method `dispatcher.log`: one `Printf` on the logger when one is set. -/
def dispatcher.log {σ : Type} (d : dispatcher) (r : Report) (rt : Runtime σ) : Runtime σ :=
  match d.logger with
  | some l => { rt with output := rt.output ++ [(l, r)] }
  | none => rt

/-- The call `handler.HandleEvent(event)`: a method call on the nil interface
panics with a nil dereference; otherwise the handler runs. -/
def HandleEvent {σ : Type} (hs : Handlers σ) (handler : Handler) (event : Event) (w : σ) :
    σ × Outcome :=
  match handler with
  | Handler.nil => (w, Outcome.panicked PanicValue.nilDereference)
  | Handler.ref id => hs.handle id event w

/-- The builtin `recover()` called from a deferred function: the panic value (and
the panic stops) when the function is panicking, nil otherwise. -/
def recover : Outcome → Option PanicValue × Outcome
  | Outcome.returned => (none, Outcome.returned)
  | Outcome.panicked v => (some v, Outcome.returned)

/-- The method `publish`: call the handler, then run the deferred function, which
recovers and logs when the recovered value is not nil. -/
def dispatcher.publish {σ : Type} (d : dispatcher) (hs : Handlers σ) (handler : Handler)
    (event : Event) (rt : Runtime σ) : Runtime σ × Outcome :=
  let r := HandleEvent hs handler event rt.world
  let rt1 : Runtime σ :=
    { rt with world := r.1,
              invocations := rt.invocations ++ [⟨handler, event, r.2⟩] }
  let rec_ := recover r.2
  match rec_.1 with
  | some err =>
    (d.log ⟨"handler %#v panicked on event %#v with: %s", handler, event, err⟩ rt1, rec_.2)
  | none => (rt1, rec_.2)

/-- The loop of `PublishSync`: call `publish` for each handler in turn; a panic that
leaves `publish` ends the loop and leaves `PublishSync` too. -/
def dispatcher.publishLoop {σ : Type} (d : dispatcher) (hs : Handlers σ) (event : Event) :
    List Handler → Runtime σ → Runtime σ × Outcome
  | [], rt => (rt, Outcome.returned)
  | s :: rest, rt =>
    match d.publish hs s event rt with
    | (rt1, Outcome.returned) => d.publishLoop hs event rest rt1
    | (rt1, Outcome.panicked v) => (rt1, Outcome.panicked v)

/-- The method `PublishSync`: publish the event to every handler of its tag. -/
def dispatcher.PublishSync {σ : Type} (d : dispatcher) (hs : Handlers σ) (event : Event)
    (rt : Runtime σ) : Runtime σ × Outcome :=
  d.publishLoop hs event (d.get event.Tag) rt

/-! ## gevt.go: the method `Publish` -/

/-- What can be observed of one `Publish` call, in the order it happens. -/
inductive Moment where
  | launch (h : Handler)
  | finish (h : Handler)
  | close
  | ret
  deriving DecidableEq, Repr

/-- The state of one `Publish` call: the runtime, the counter of the `sync.WaitGroup`,
the goroutines that were started and have not finished, whether the channel `done` is
closed, and the record of what has happened so far. -/
structure Async (σ : Type) where
  rt : Runtime σ
  wg : Nat
  running : List Handler
  done : Bool
  moments : List Moment

/-- One round of the loop of `Publish`: `wg.Add(1)` and the `go` statement for `s`. -/
def Async.launch {σ : Type} (st : Async σ) (s : Handler) : Async σ :=
  { st with wg := st.wg + 1,
            running := st.running ++ [s],
            moments := st.moments ++ [Moment.launch s] }

/-- The goroutine at position `k` among the running ones runs to its end:
`d.publish(h, event)` and then the deferred `wg.Done()`.  A panic that leaves `publish`
leaves the goroutine as well, after `wg.Done()`. -/
def dispatcher.goroutine {σ : Type} (d : dispatcher) (hs : Handlers σ) (event : Event)
    (st : Async σ) (k : Nat) : Async σ × Outcome :=
  match st.running[k]? with
  | none => (st, Outcome.returned)
  | some h =>
    let r := d.publish hs h event st.rt
    ({ st with rt := r.1,
               wg := st.wg - 1,
               running := st.running.eraseIdx k,
               moments := st.moments ++ [Moment.finish h] }, r.2)

/-- The call `wg.Wait()`: the caller stays blocked while the counter is not zero.
Meanwhile the running goroutines finish one after the other, in the order picked by the
schedule (each entry selects one of the goroutines still running).  The result is `none`
when the caller is still blocked after `fuel` goroutines have finished or when no
goroutine is left to bring the counter down.  (A goroutine may begin as soon as its `go`
statement has run; beginning touches neither the runtime nor the counter, so letting
the goroutines run here loses no order in which the handlers can be called.) -/
def dispatcher.wait {σ : Type} (d : dispatcher) (hs : Handlers σ) (event : Event) :
    Nat → List Nat → Async σ → Option (Async σ × Outcome)
  | 0, _, st => if st.wg = 0 then some (st, Outcome.returned) else none
  | fuel + 1, sched, st =>
    if st.wg = 0 then some (st, Outcome.returned)
    else if st.running.length = 0 then none
    else
      match d.goroutine hs event st (sched.headD 0 % st.running.length) with
      | (st1, Outcome.returned) => d.wait hs event fuel sched.tail st1
      | (st1, Outcome.panicked v) => some (st1, Outcome.panicked v)

/-- The method `Publish`: under the mutex start one goroutine per handler of the tag's
sequence; then the deferred function unlocks, waits for the goroutines with `wg.Wait()`
and closes `done`; only then the caller gets the channel. -/
def dispatcher.Publish {σ : Type} (d : dispatcher) (hs : Handlers σ) (event : Event)
    (sched : List Nat) (rt : Runtime σ) : Option (Async σ × Outcome) :=
  let st0 : Async σ := { rt := rt, wg := 0, running := [], done := false, moments := [] }
  let st1 := (d.get event.Tag).foldl Async.launch st0
  match d.wait hs event st1.wg sched st1 with
  | none => none
  | some (st2, Outcome.panicked v) => some (st2, Outcome.panicked v)
  | some (st2, Outcome.returned) =>
    some ({ st2 with done := true,
                     moments := st2.moments ++ [Moment.close, Moment.ret] }, Outcome.returned)

/-! ## The dispatcher behind its pointer receiver -/

/-- A program state: the dispatcher that the receiver `d *dispatcher` points to, and the
runtime around it. -/
structure System (σ : Type) where
  d : dispatcher
  rt : Runtime σ

/-- The method `PublishSync` as a step of the whole state: the receiver is read for the
tag's sequence and for the logger and is never assigned. -/
def System.PublishSync {σ : Type} (hs : Handlers σ) (s : System σ) (event : Event) :
    System σ × Outcome :=
  let r := s.d.PublishSync hs event s.rt
  ({ s with rt := r.1 }, r.2)

/-- The method `Publish` as a step of the whole state, with the state of the channel
`done` at the moment the caller gets it; the receiver is read and never assigned. -/
def System.Publish {σ : Type} (hs : Handlers σ) (s : System σ) (event : Event)
    (sched : List Nat) : Option ((System σ × Bool) × Outcome) :=
  match s.d.Publish hs event sched s.rt with
  | none => none
  | some (st, o) => some (({ s with rt := st.rt }, st.done), o)

/-! ## The words of the specification, and call sequences -/

/-- The handlers of a list in order, each kept at its first occurrence only. -/
def firstOccurrences : List Handler → List Handler
  | [] => []
  | h :: rest => h :: (firstOccurrences rest).filter (fun x => x ≠ h)

/-- One round of `subscribe` seen on the tag's sequence alone. -/
def addHandler (s : List Handler) (h : Handler) : List Handler :=
  if h = Handler.nil ∨ h ∈ s then s else s ++ [h]

/-- The report owed for one handler call: one line on the configured logger when the
call panicked, nothing when it returned or when no logger is configured. -/
def reportOf (logger : Option Logger) (inv : Invocation) : Option (Logger × Report) :=
  match logger, inv.outcome with
  | some l, Outcome.panicked v =>
    some (l, ⟨"handler %#v panicked on event %#v with: %s", inv.handler, inv.event, v⟩)
  | _, _ => none

/-- Whether a handler call ended in a panic. -/
def Invocation.panicked (inv : Invocation) : Bool :=
  match inv.outcome with
  | Outcome.panicked _ => true
  | Outcome.returned => false

/-- The reports owed for a list of handler calls, in order. -/
def expectedReports (logger : Option Logger) (invs : List Invocation) : List (Logger × Report) :=
  invs.filterMap (reportOf logger)

/-- Calling the handlers of a list one after the other, each exactly once, in the order
of the list: the calls with the way each ended, and the world afterwards.  A call on the
nil handler panics with a nil dereference and leaves the world alone. -/
def callEach {σ : Type} (hs : Handlers σ) (event : Event) :
    List Handler → σ → List Invocation × σ
  | [], w => ([], w)
  | Handler.nil :: rest, w =>
    let r := callEach hs event rest w
    (⟨Handler.nil, event, Outcome.panicked PanicValue.nilDereference⟩ :: r.1, r.2)
  | Handler.ref id :: rest, w =>
    let o := hs.handle id event w
    let r := callEach hs event rest o.1
    (⟨Handler.ref id, event, o.2⟩ :: r.1, r.2)

/-- A call of one of the state-changing methods of the `Dispatcher` interface. -/
inductive Call where
  | Subscribe (tag : String) (handlers : List Handler)
  | Unsubscribe (tag : String) (handlers : List Handler)
  | UnsubscribeAll (tags : List String)
  | WithLogger (logger : Option Logger)

/-- Performing one call on a dispatcher. -/
def dispatcher.call (d : dispatcher) : Call → dispatcher
  | Call.Subscribe tag handlers => d.Subscribe tag handlers
  | Call.Unsubscribe tag handlers => d.Unsubscribe tag handlers
  | Call.UnsubscribeAll tags => d.UnsubscribeAll tags
  | Call.WithLogger logger => d.WithLogger logger

/-- The dispatcher reached from `NewDispatcher()` by a sequence of calls. -/
def reach (calls : List Call) : dispatcher :=
  calls.foldl dispatcher.call NewDispatcher

/-- Whether a call is one of those that delete the entry of `T`: `Unsubscribe(T)` without
handlers, `UnsubscribeAll()` without tags, or `UnsubscribeAll(tags...)` with `T` among
the tags. -/
def removesEntry (T : String) : Call → Bool
  | Call.Unsubscribe tag handlers => decide (tag = T) && handlers.isEmpty
  | Call.UnsubscribeAll tags => tags.isEmpty || decide (T ∈ tags)
  | _ => false

/-- Sample handlers over a counter: handler 2 panics with "oops", the others return;
every call adds one to the counter. -/
def sampleHandlers : Handlers Nat :=
  ⟨fun id _ w =>
    if id = 2 then (w + 1, Outcome.panicked (PanicValue.value "oops"))
    else (w + 1, Outcome.returned)⟩

/-- A runtime in which nothing has happened yet. -/
def freshRuntime : Runtime Nat :=
  { world := 0, output := [], invocations := [] }

/-! ## Lemmas on the registry -/
@[simp] theorem subscribers_put (d : dispatcher) (tag : String) (s : List Handler) (t : String) :
    (d.put tag s).subscribers t = if t = tag then some s else d.subscribers t := rfl

@[simp] theorem logger_put (d : dispatcher) (tag : String) (s : List Handler) :
    (d.put tag s).logger = d.logger := rfl

@[simp] theorem subscribers_delete (d : dispatcher) (tag : String) (t : String) :
    (d.delete tag).subscribers t = if t = tag then none else d.subscribers t := rfl

@[simp] theorem logger_delete (d : dispatcher) (tag : String) :
    (d.delete tag).logger = d.logger := rfl

theorem get_of_some {d : dispatcher} {tag : String} {s : List Handler}
    (h : d.subscribers tag = some s) : d.get tag = s := by
  simp [dispatcher.get, h]

theorem dispatcher_ext {d e : dispatcher} (hs : ∀ t, d.subscribers t = e.subscribers t)
    (hl : d.logger = e.logger) : d = e := by
  cases d; cases e
  simp only [dispatcher.mk.injEq]
  exact ⟨funext hs, hl⟩

theorem subscribe_at (d : dispatcher) (tag : String) (h : Handler) (s : List Handler)
    (hd : d.subscribers tag = some s) :
    (d.subscribe tag h).subscribers tag = some (addHandler s h) := by
  unfold dispatcher.subscribe addHandler
  rw [get_of_some hd]
  by_cases h1 : h = Handler.nil
  · simp [h1, hd]
  · by_cases h2 : h ∈ s
    · have : (s.any fun x => x == h) = true := by
        simp only [List.any_eq_true, beq_iff_eq]
        exact ⟨h, h2, rfl⟩
      simp [h1, h2, this, hd]
    · have : (s.any fun x => x == h) = false := by
        simp only [List.any_eq_false, beq_iff_eq]
        intro x hx hxe
        exact h2 (hxe ▸ hx)
      simp [h1, h2, this]

theorem subscribe_other (d : dispatcher) (tag : String) (h : Handler) (t : String)
    (ht : t ≠ tag) : (d.subscribe tag h).subscribers t = d.subscribers t := by
  unfold dispatcher.subscribe
  split
  · rfl
  · split
    · rfl
    · simp [ht]

theorem subscribe_logger (d : dispatcher) (tag : String) (h : Handler) :
    (d.subscribe tag h).logger = d.logger := by
  unfold dispatcher.subscribe
  split
  · rfl
  · split <;> rfl

theorem foldl_subscribe_at (tag : String) (hs : List Handler) :
    ∀ (d : dispatcher) (s : List Handler), d.subscribers tag = some s →
      (hs.foldl (fun acc h => acc.subscribe tag h) d).subscribers tag
        = some (hs.foldl addHandler s) := by
  induction hs with
  | nil => intro d s hd; simpa using hd
  | cons h rest ih =>
    intro d s hd
    simp only [List.foldl_cons]
    exact ih _ _ (subscribe_at d tag h s hd)

theorem foldl_subscribe_other (tag : String) (hs : List Handler) (t : String) (ht : t ≠ tag) :
    ∀ (d : dispatcher),
      (hs.foldl (fun acc h => acc.subscribe tag h) d).subscribers t = d.subscribers t := by
  induction hs with
  | nil => intro d; rfl
  | cons h rest ih =>
    intro d
    simp only [List.foldl_cons]
    rw [ih, subscribe_other d tag h t ht]

theorem foldl_subscribe_logger (tag : String) (hs : List Handler) :
    ∀ (d : dispatcher),
      (hs.foldl (fun acc h => acc.subscribe tag h) d).logger = d.logger := by
  induction hs with
  | nil => intro d; rfl
  | cons h rest ih =>
    intro d
    simp only [List.foldl_cons]
    rw [ih, subscribe_logger]

theorem Subscribe_at (d : dispatcher) (tag : String) (hs : List Handler) (hne : hs ≠ []) :
    (d.Subscribe tag hs).subscribers tag = some (hs.foldl addHandler (d.get tag)) := by
  unfold dispatcher.Subscribe
  have hlen : hs.length ≠ 0 := by simpa using hne
  simp only [hlen, if_false]
  cases hd : d.subscribers tag with
  | none =>
    simp only
    rw [foldl_subscribe_at tag hs (d.put tag []) [] (by simp)]
    simp [dispatcher.get, hd]
  | some s =>
    simp only
    rw [foldl_subscribe_at tag hs d s hd, get_of_some hd]

theorem Subscribe_get (d : dispatcher) (tag : String) (hs : List Handler) :
    (d.Subscribe tag hs).get tag = hs.foldl addHandler (d.get tag) := by
  cases hs with
  | nil => simp [dispatcher.Subscribe]
  | cons h rest => exact get_of_some (Subscribe_at d tag (h :: rest) (by simp))

theorem Subscribe_other (d : dispatcher) (tag : String) (hs : List Handler) (t : String)
    (ht : t ≠ tag) : (d.Subscribe tag hs).subscribers t = d.subscribers t := by
  unfold dispatcher.Subscribe
  split
  · rfl
  · rw [foldl_subscribe_other tag hs t ht]
    split <;> simp [ht]

theorem Subscribe_logger (d : dispatcher) (tag : String) (hs : List Handler) :
    (d.Subscribe tag hs).logger = d.logger := by
  unfold dispatcher.Subscribe
  split
  · rfl
  · rw [foldl_subscribe_logger]
    split <;> rfl

theorem firstOccurrences_filter (p : Handler → Bool) (l : List Handler) :
    firstOccurrences (l.filter p) = (firstOccurrences l).filter p := by
  induction l with
  | nil => rfl
  | cons a l ih =>
    by_cases hp : p a = true
    · simp only [List.filter_cons, hp, if_true, firstOccurrences, ih, decide_True]
      simp only [ne_eq, List.filter_filter, List.cons.injEq, true_and]
      apply List.filter_congr
      intro x _
      exact Bool.and_comm _ _
    · simp only [List.filter_cons, hp, firstOccurrences]
      simp only [ne_eq, List.filter_filter, Bool.false_eq_true, if_false]
      rw [ih]
      apply List.filter_congr
      intro x _
      by_cases hx : x = a
      · subst hx; simp [hp]
      · simp [hx]

theorem mem_firstOccurrences (l : List Handler) (h : Handler) :
    h ∈ firstOccurrences l ↔ h ∈ l := by
  induction l with
  | nil => simp [firstOccurrences]
  | cons a l ih =>
    simp only [firstOccurrences, List.mem_cons, List.mem_filter, ih, ne_eq, decide_not,
      Bool.not_eq_true', decide_eq_false_iff_not]
    by_cases hx : h = a
    · simp [hx]
    · simp [hx]

theorem nodup_firstOccurrences (l : List Handler) : (firstOccurrences l).Nodup := by
  induction l with
  | nil => simp [firstOccurrences]
  | cons a l ih =>
    simp only [firstOccurrences, List.nodup_cons]
    refine ⟨?_, ih.filter _⟩
    simp [List.mem_filter]

theorem firstOccurrences_sublist (l : List Handler) : (firstOccurrences l).Sublist l := by
  induction l with
  | nil => simp [firstOccurrences]
  | cons a l ih =>
    simp only [firstOccurrences]
    exact ((List.filter_sublist _).trans ih).cons₂ a

theorem firstOccurrences_of_nodup (l : List Handler) (hl : l.Nodup) :
    firstOccurrences l = l := by
  induction l with
  | nil => rfl
  | cons a l ih =>
    rw [List.nodup_cons] at hl
    simp only [firstOccurrences, ih hl.2, List.cons.injEq, true_and]
    rw [List.filter_eq_self]
    intro x hx
    have : x ≠ a := fun e => hl.1 (e ▸ hx)
    simpa using this

theorem foldl_addHandler (hs : List Handler) :
    ∀ s : List Handler, hs.foldl addHandler s
      = s ++ firstOccurrences
          ((hs.filter (fun h => h ≠ Handler.nil)).filter (fun h => h ∉ s)) := by
  induction hs with
  | nil => intro s; simp [firstOccurrences]
  | cons h rest ih =>
    intro s
    simp only [List.foldl_cons]
    by_cases h1 : h = Handler.nil
    · have : addHandler s h = s := by simp [addHandler, h1]
      rw [this, ih s]
      simp [List.filter_cons, h1]
    · by_cases h2 : h ∈ s
      · have : addHandler s h = s := by simp [addHandler, h2]
        rw [this, ih s]
        simp [List.filter_cons, h1, h2]
      · have : addHandler s h = s ++ [h] := by simp [addHandler, h1, h2]
        rw [this, ih (s ++ [h])]
        simp only [List.append_assoc, List.singleton_append, List.filter_cons, h1, h2, ne_eq,
          not_false_eq_true, decide_True, if_true, firstOccurrences, List.append_cancel_left_eq,
          List.cons.injEq, true_and]
        rw [← firstOccurrences_filter]
        simp only [List.filter_filter]
        congr 1
        apply List.filter_congr
        intro x _
        by_cases hx : x = h
        · subst hx; simp
        · simp [hx, List.mem_append]

theorem foldl_addHandler_nil (hs : List Handler) :
    hs.foldl addHandler [] = firstOccurrences (hs.filter (fun h => h ≠ Handler.nil)) := by
  rw [foldl_addHandler]
  simp

theorem mem_foldl_addHandler (hs s : List Handler) (h : Handler) :
    h ∈ hs.foldl addHandler s ↔ h ∈ s ∨ (h ∈ hs ∧ h ≠ Handler.nil) := by
  rw [foldl_addHandler, List.mem_append, mem_firstOccurrences]
  simp only [List.mem_filter, ne_eq, decide_not, Bool.not_eq_true', decide_eq_false_iff_not,
    decide_eq_true_eq]
  by_cases hm : h ∈ s
  · simp [hm]
  · simp [hm]

theorem nodup_foldl_addHandler (hs s : List Handler) (hn : s.Nodup) :
    (hs.foldl addHandler s).Nodup := by
  rw [foldl_addHandler]
  refine List.Nodup.append hn (nodup_firstOccurrences _) ?_
  intro x hx hy
  rw [mem_firstOccurrences] at hy
  simp only [List.mem_filter, decide_eq_true_eq] at hy
  exact hy.2 hx

theorem foldl_addHandler_absorb (hs : List Handler) :
    ∀ s : List Handler, (∀ h ∈ hs, h = Handler.nil ∨ h ∈ s) → hs.foldl addHandler s = s := by
  intro s hall
  rw [foldl_addHandler]
  have : (hs.filter (fun h => h ≠ Handler.nil)).filter (fun h => h ∉ s) = [] := by
    rw [List.filter_eq_nil_iff]
    intro x hx
    simp only [List.mem_filter, ne_eq, decide_not, Bool.not_eq_true', decide_eq_false_iff_not] at hx
    rcases hall x hx.1 with h1 | h2
    · exact absurd h1 hx.2
    · simpa using h2
  rw [this]
  simp [firstOccurrences]

theorem foldl_addHandler_idem (hs s : List Handler) :
    hs.foldl addHandler (hs.foldl addHandler s) = hs.foldl addHandler s := by
  apply foldl_addHandler_absorb
  intro h hh
  by_cases h1 : h = Handler.nil
  · exact Or.inl h1
  · exact Or.inr ((mem_foldl_addHandler hs s h).2 (Or.inr ⟨hh, h1⟩))

/-! ## Lemmas on publishing -/

theorem publish_spec {σ : Type} (d : dispatcher) (hs : Handlers σ) (handler : Handler)
    (event : Event) (rt : Runtime σ) :
    (d.publish hs handler event rt).2 = Outcome.returned ∧
    (d.publish hs handler event rt).1.invocations
      = rt.invocations ++ [⟨handler, event, (HandleEvent hs handler event rt.world).2⟩] ∧
    (d.publish hs handler event rt).1.output
      = rt.output ++ expectedReports d.logger
          [⟨handler, event, (HandleEvent hs handler event rt.world).2⟩] ∧
    (d.publish hs handler event rt).1.world = (HandleEvent hs handler event rt.world).1 := by
  unfold dispatcher.publish
  cases ho : (HandleEvent hs handler event rt.world).2 with
  | returned =>
    simp [recover, expectedReports, reportOf, ho]
  | panicked v =>
    cases hl : d.logger with
    | none => simp [recover, expectedReports, reportOf, ho, dispatcher.log, hl]
    | some l => simp [recover, expectedReports, reportOf, ho, dispatcher.log, hl]

theorem publishLoop_spec {σ : Type} (d : dispatcher) (hs : Handlers σ) (event : Event)
    (s : List Handler) :
    ∀ rt : Runtime σ, ∃ new : List Invocation,
      (d.publishLoop hs event s rt).2 = Outcome.returned ∧
      (d.publishLoop hs event s rt).1.invocations = rt.invocations ++ new ∧
      new.map (fun inv => inv.handler) = s ∧
      (∀ inv ∈ new, inv.event = event) ∧
      (d.publishLoop hs event s rt).1.output = rt.output ++ expectedReports d.logger new := by
  induction s with
  | nil =>
    intro rt
    exact ⟨[], by simp [dispatcher.publishLoop, expectedReports]⟩
  | cons h rest ih =>
    intro rt
    obtain ⟨p1, p2, p3, _⟩ := publish_spec d hs h event rt
    obtain ⟨new, q1, q2, q3, q4, q5⟩ := ih (d.publish hs h event rt).1
    refine ⟨⟨h, event, (HandleEvent hs h event rt.world).2⟩ :: new, ?_⟩
    have hstep : d.publishLoop hs event (h :: rest) rt
        = d.publishLoop hs event rest (d.publish hs h event rt).1 := by
      rw [dispatcher.publishLoop]
      cases hp : d.publish hs h event rt with
      | mk rt1 o =>
        rw [hp] at p1
        simp only at p1
        subst p1
        rfl
    rw [hstep]
    refine ⟨q1, ?_, ?_, ?_, ?_⟩
    · rw [q2, p2]; simp
    · simp [q3]
    · intro inv hinv
      rcases List.mem_cons.1 hinv with e | e
      · rw [e]
      · exact q4 inv e
    · rw [q5, p3]
      simp [expectedReports, List.filterMap_cons]
      cases reportOf d.logger ⟨h, event, (HandleEvent hs h event rt.world).2⟩ <;> simp

theorem foldl_launch {σ : Type} (l : List Handler) :
    ∀ st : Async σ,
      (l.foldl Async.launch st).rt = st.rt ∧
      (l.foldl Async.launch st).wg = st.wg + l.length ∧
      (l.foldl Async.launch st).running = st.running ++ l ∧
      (l.foldl Async.launch st).done = st.done ∧
      (l.foldl Async.launch st).moments = st.moments ++ l.map Moment.launch := by
  induction l with
  | nil => intro st; simp
  | cons a rest ih =>
    intro st
    simp only [List.foldl_cons]
    obtain ⟨h1, h2, h3, h4, h5⟩ := ih (st.launch a)
    refine ⟨h1, ?_, ?_, h4, ?_⟩
    · rw [h2]; simp [Async.launch]; omega
    · rw [h3]; simp [Async.launch]
    · rw [h5]; simp [Async.launch]

theorem perm_cons_eraseIdx (l : List Handler) :
    ∀ (k : Nat) (a : Handler), l[k]? = some a → (a :: l.eraseIdx k).Perm l := by
  induction l with
  | nil => intro k a h; simp at h
  | cons b l ih =>
    intro k a h
    cases k with
    | zero =>
      simp only [List.getElem?_cons_zero, Option.some.injEq] at h
      subst h
      simp
    | succ k =>
      simp only [List.getElem?_cons_succ] at h
      simp only [List.eraseIdx_cons_succ]
      exact (List.Perm.swap b a _).trans ((ih k a h).cons b)

theorem goroutine_spec {σ : Type} (d : dispatcher) (hs : Handlers σ) (event : Event)
    (st : Async σ) (k : Nat) (h : Handler) (hk : st.running[k]? = some h) :
    (d.goroutine hs event st k).2 = Outcome.returned ∧
    (d.goroutine hs event st k).1.rt = (d.publish hs h event st.rt).1 ∧
    (d.goroutine hs event st k).1.wg = st.wg - 1 ∧
    (d.goroutine hs event st k).1.running = st.running.eraseIdx k ∧
    (d.goroutine hs event st k).1.done = st.done ∧
    (d.goroutine hs event st k).1.moments = st.moments ++ [Moment.finish h] := by
  unfold dispatcher.goroutine
  rw [hk]
  exact ⟨(publish_spec d hs h event st.rt).1, rfl, rfl, rfl, rfl, rfl⟩

theorem callEach_cons {σ : Type} (hs : Handlers σ) (event : Event) (h : Handler)
    (rest : List Handler) (w : σ) :
    callEach hs event (h :: rest) w
      = (⟨h, event, (HandleEvent hs h event w).2⟩
          :: (callEach hs event rest (HandleEvent hs h event w).1).1,
         (callEach hs event rest (HandleEvent hs h event w).1).2) := by
  cases h <;> rfl

theorem callEach_handlers {σ : Type} (hs : Handlers σ) (event : Event) (l : List Handler) :
    ∀ w : σ, (callEach hs event l w).1.map (fun inv => inv.handler) = l := by
  induction l with
  | nil => intro w; rfl
  | cons h rest ih =>
    intro w
    rw [callEach_cons]
    simp [ih]

theorem callEach_event {σ : Type} (hs : Handlers σ) (event : Event) (l : List Handler) :
    ∀ w : σ, ∀ inv ∈ (callEach hs event l w).1, inv.event = event := by
  induction l with
  | nil => intro w inv hinv; simp [callEach] at hinv
  | cons h rest ih =>
    intro w inv hinv
    rw [callEach_cons] at hinv
    rcases List.mem_cons.1 hinv with e | e
    · rw [e]
    · exact ih _ inv e

theorem expectedReports_cons (logger : Option Logger) (inv : Invocation)
    (rest : List Invocation) :
    expectedReports logger (inv :: rest)
      = expectedReports logger [inv] ++ expectedReports logger rest := by
  simp only [expectedReports, List.filterMap_cons, List.filterMap_nil]
  cases reportOf logger inv <;> simp

theorem publishLoop_calls {σ : Type} (d : dispatcher) (hs : Handlers σ) (event : Event)
    (s : List Handler) :
    ∀ rt : Runtime σ,
      (d.publishLoop hs event s rt).2 = Outcome.returned ∧
      (d.publishLoop hs event s rt).1.world = (callEach hs event s rt.world).2 ∧
      (d.publishLoop hs event s rt).1.invocations
        = rt.invocations ++ (callEach hs event s rt.world).1 ∧
      (d.publishLoop hs event s rt).1.output
        = rt.output ++ expectedReports d.logger (callEach hs event s rt.world).1 := by
  induction s with
  | nil =>
    intro rt
    simp [dispatcher.publishLoop, callEach, expectedReports]
  | cons h rest ih =>
    intro rt
    obtain ⟨p1, p2, p3, p4⟩ := publish_spec d hs h event rt
    obtain ⟨q1, q2, q3, q4⟩ := ih (d.publish hs h event rt).1
    have hstep : d.publishLoop hs event (h :: rest) rt
        = d.publishLoop hs event rest (d.publish hs h event rt).1 := by
      rw [dispatcher.publishLoop]
      cases hp : d.publish hs h event rt with
      | mk rt1 o =>
        rw [hp] at p1
        simp only at p1
        subst p1
        rfl
    rw [hstep, callEach_cons]
    rw [p4] at q2 q3 q4
    refine ⟨q1, q2, ?_, ?_⟩
    · rw [q3, p2]; simp
    · rw [q4, p3, expectedReports_cons d.logger _
        (callEach hs event rest (HandleEvent hs h event rt.world).1).1]
      simp

theorem wait_calls {σ : Type} (d : dispatcher) (hs : Handlers σ) (event : Event) (fuel : Nat) :
    ∀ (sched : List Nat) (st : Async σ), st.wg = st.running.length →
      st.running.length ≤ fuel →
      ∃ (st1 : Async σ) (order : List Handler),
        d.wait hs event fuel sched st = some (st1, Outcome.returned) ∧
        st1.wg = 0 ∧ st1.running = [] ∧ st1.done = st.done ∧
        order.Perm st.running ∧
        st1.rt.world = (callEach hs event order st.rt.world).2 ∧
        st1.rt.invocations = st.rt.invocations ++ (callEach hs event order st.rt.world).1 ∧
        st1.moments = st.moments ++ order.map Moment.finish ∧
        st1.rt.output
          = st.rt.output ++ expectedReports d.logger (callEach hs event order st.rt.world).1 := by
  induction fuel with
  | zero =>
    intro sched st hwg hlen
    have hl : st.running.length = 0 := Nat.le_zero.1 hlen
    have hr : st.running = [] := List.length_eq_zero.1 hl
    refine ⟨st, [], ?_, by omega, hr, rfl, by simp [hr], rfl, by simp [callEach], by simp, ?_⟩
    · simp [dispatcher.wait, hwg, hl]
    · simp [expectedReports, callEach]
  | succ fuel ih =>
    intro sched st hwg hlen
    by_cases hz : st.wg = 0
    · have hl : st.running.length = 0 := by omega
      have hr : st.running = [] := List.length_eq_zero.1 hl
      refine ⟨st, [], ?_, hz, hr, rfl, by simp [hr], rfl, by simp [callEach], by simp, ?_⟩
      · simp [dispatcher.wait, hz]
      · simp [expectedReports, callEach]
    · have hl : st.running.length ≠ 0 := by omega
      have hpos : 0 < st.running.length := Nat.pos_of_ne_zero hl
      have hk : sched.headD 0 % st.running.length < st.running.length := Nat.mod_lt _ hpos
      have hget : st.running[sched.headD 0 % st.running.length]?
          = some (st.running[sched.headD 0 % st.running.length]) :=
        List.getElem?_eq_getElem hk
      obtain ⟨g1, g2, g3, g4, g5, g6⟩ :=
        goroutine_spec d hs event st _ _ hget
      obtain ⟨_, p2, p3, p4⟩ :=
        publish_spec d hs (st.running[sched.headD 0 % st.running.length]) event st.rt
      have hlen1 : (d.goroutine hs event st (sched.headD 0 % st.running.length)).1.running.length
          = st.running.length - 1 := by
        rw [g4, List.length_eraseIdx, if_pos hk]
      obtain ⟨st1, order, w1, w2, w3, w4, w5, w6, w7, w8, w9⟩ :=
        ih sched.tail (d.goroutine hs event st (sched.headD 0 % st.running.length)).1
          (by rw [g3, hlen1, hwg]) (by rw [hlen1]; omega)
      rw [g2, p4] at w6 w7 w9
      refine ⟨st1, st.running[sched.headD 0 % st.running.length] :: order,
        ?_, w2, w3, ?_, ?_, ?_, ?_, ?_, ?_⟩
      · rw [dispatcher.wait, if_neg hz, if_neg hl]
        cases hg : d.goroutine hs event st (sched.headD 0 % st.running.length) with
        | mk a o =>
          rw [hg] at g1 w1
          simp only at g1 w1
          subst g1
          exact w1
      · rw [w4, g5]
      · exact ((w5.trans (by rw [g4])).cons _).trans (perm_cons_eraseIdx _ _ _ hget)
      · rw [callEach_cons]
        exact w6
      · rw [callEach_cons, w7, p2]
        simp
      · rw [w8, g6]; simp
      · rw [callEach_cons, w9, p3,
          expectedReports_cons d.logger _
            (callEach hs event order
              (HandleEvent hs (st.running[sched.headD 0 % st.running.length]) event
                st.rt.world).1).1]
        simp

theorem Publish_calls {σ : Type} (d : dispatcher) (hs : Handlers σ) (event : Event)
    (sched : List Nat) (rt : Runtime σ) :
    ∃ (st : Async σ) (order : List Handler),
      d.Publish hs event sched rt = some (st, Outcome.returned) ∧
      st.wg = 0 ∧ st.running = [] ∧ st.done = true ∧
      order.Perm (d.get event.Tag) ∧
      st.rt.world = (callEach hs event order rt.world).2 ∧
      st.rt.invocations = rt.invocations ++ (callEach hs event order rt.world).1 ∧
      st.moments = (d.get event.Tag).map Moment.launch
        ++ order.map Moment.finish ++ [Moment.close, Moment.ret] ∧
      st.rt.output = rt.output ++ expectedReports d.logger (callEach hs event order rt.world).1 := by
  obtain ⟨l1, l2, l3, l4, l5⟩ := foldl_launch (d.get event.Tag)
    ({ rt := rt, wg := 0, running := [], done := false, moments := [] } : Async σ)
  simp only [List.nil_append, Nat.zero_add] at l1 l2 l3 l4 l5
  obtain ⟨st1, order, w1, w2, w3, w4, w5, w6, w7, w8, w9⟩ :=
    wait_calls d hs event
      ((d.get event.Tag).foldl Async.launch
        ({ rt := rt, wg := 0, running := [], done := false, moments := [] } : Async σ)).wg
      sched
      ((d.get event.Tag).foldl Async.launch
        ({ rt := rt, wg := 0, running := [], done := false, moments := [] } : Async σ))
      (by rw [l2, l3]) (by rw [l2, l3])
  rw [l1] at w6 w7 w9
  refine ⟨{ st1 with done := true, moments := st1.moments ++ [Moment.close, Moment.ret] },
    order, ?_, w2, w3, rfl, ?_, w6, w7, ?_, w9⟩
  · unfold dispatcher.Publish
    simp only [w1]
  · rw [l3] at w5
    exact w5
  · show st1.moments ++ [Moment.close, Moment.ret] = _
    rw [w8, l5]

/-! ## Lemmas on unsubscribing -/

theorem findIdx_none_of_not_mem (handler : Handler) (s : List Handler) (hm : handler ∉ s) :
    s.findIdx? (fun h => h == handler) = none := by
  rw [List.findIdx?_eq_none_iff]
  intro x hx
  have : x ≠ handler := fun e => hm (e ▸ hx)
  simpa using this

theorem findIdx_erase (handler : Handler) (s : List Handler) (hm : handler ∈ s) :
    ∃ i, s.findIdx? (fun h => h == handler) = some i ∧
      s.take i ++ s.drop (i + 1) = s.erase handler := by
  induction s with
  | nil => simp at hm
  | cons a s ih =>
    by_cases ha : a = handler
    · refine ⟨0, ?_, ?_⟩
      · simp [List.findIdx?_cons, ha]
      · simp [ha]
    · have hm2 : handler ∈ s := by
        rcases List.mem_cons.1 hm with e | e
        · exact absurd e.symm ha
        · exact e
      obtain ⟨i, hi, he⟩ := ih hm2
      refine ⟨i + 1, ?_, ?_⟩
      · simp [List.findIdx?_cons, ha, List.findIdx?_succ, hi]
      · have hne : (a == handler) = false := by simpa using ha
        simp [List.erase_cons, hne, he]

theorem unsubscribe_at (d : dispatcher) (tag : String) (handler : Handler) :
    (d.unsubscribe tag handler).subscribers tag
      = if handler ∈ d.get tag then some ((d.get tag).erase handler) else d.subscribers tag := by
  unfold dispatcher.unsubscribe
  by_cases hm : handler ∈ d.get tag
  · obtain ⟨i, hi, he⟩ := findIdx_erase handler (d.get tag) hm
    simp [hi, he, hm]
  · simp [findIdx_none_of_not_mem handler (d.get tag) hm, hm]

theorem unsubscribe_other (d : dispatcher) (tag : String) (handler : Handler) (t : String)
    (ht : t ≠ tag) : (d.unsubscribe tag handler).subscribers t = d.subscribers t := by
  unfold dispatcher.unsubscribe
  simp only
  split
  · simp [ht]
  · rfl

theorem unsubscribe_logger (d : dispatcher) (tag : String) (handler : Handler) :
    (d.unsubscribe tag handler).logger = d.logger := by
  unfold dispatcher.unsubscribe
  simp only
  split <;> rfl

theorem unsubscribe_get (d : dispatcher) (tag : String) (handler : Handler) :
    (d.unsubscribe tag handler).get tag = (d.get tag).erase handler := by
  have h := unsubscribe_at d tag handler
  by_cases hm : handler ∈ d.get tag
  · rw [if_pos hm] at h
    exact get_of_some h
  · rw [if_neg hm] at h
    rw [List.erase_of_not_mem hm]
    simp [dispatcher.get, h]

theorem foldl_unsubscribe_get (tag : String) (hs : List Handler) :
    ∀ d : dispatcher, (hs.foldl (fun acc h => acc.unsubscribe tag h) d).get tag
      = hs.foldl (fun s h => s.erase h) (d.get tag) := by
  induction hs with
  | nil => intro d; rfl
  | cons h rest ih =>
    intro d
    simp only [List.foldl_cons]
    rw [ih, unsubscribe_get]

theorem foldl_unsubscribe_other (tag : String) (hs : List Handler) (t : String) (ht : t ≠ tag) :
    ∀ d : dispatcher,
      (hs.foldl (fun acc h => acc.unsubscribe tag h) d).subscribers t = d.subscribers t := by
  induction hs with
  | nil => intro d; rfl
  | cons h rest ih =>
    intro d
    simp only [List.foldl_cons]
    rw [ih, unsubscribe_other d tag h t ht]

theorem foldl_unsubscribe_logger (tag : String) (hs : List Handler) :
    ∀ d : dispatcher,
      (hs.foldl (fun acc h => acc.unsubscribe tag h) d).logger = d.logger := by
  induction hs with
  | nil => intro d; rfl
  | cons h rest ih =>
    intro d
    simp only [List.foldl_cons]
    rw [ih, unsubscribe_logger]

theorem nodup_foldl_erase (hs : List Handler) :
    ∀ s : List Handler, s.Nodup → (hs.foldl (fun s h => s.erase h) s).Nodup := by
  induction hs with
  | nil => intro s hn; exact hn
  | cons h rest ih =>
    intro s hn
    simp only [List.foldl_cons]
    exact ih _ (hn.erase h)

theorem Unsubscribe_get (d : dispatcher) (tag : String) (hs : List Handler) (hne : hs ≠ []) :
    (d.Unsubscribe tag hs).get tag = hs.foldl (fun s h => s.erase h) (d.get tag) := by
  cases hs with
  | nil => exact absurd rfl hne
  | cons h rest =>
    simp only [dispatcher.Unsubscribe, List.length_cons, Nat.succ_ne_zero, if_false]
    exact foldl_unsubscribe_get tag (h :: rest) d

theorem Unsubscribe_other (d : dispatcher) (tag : String) (hs : List Handler) (t : String)
    (ht : t ≠ tag) : (d.Unsubscribe tag hs).subscribers t = d.subscribers t := by
  unfold dispatcher.Unsubscribe
  split
  · simp [ht]
  · exact foldl_unsubscribe_other tag hs t ht d

theorem Unsubscribe_logger (d : dispatcher) (tag : String) (hs : List Handler) :
    (d.Unsubscribe tag hs).logger = d.logger := by
  unfold dispatcher.Unsubscribe
  split
  · rfl
  · exact foldl_unsubscribe_logger tag hs d

theorem foldl_delete (tags : List String) (t : String) :
    ∀ d : dispatcher, (tags.foldl (fun acc tag => acc.delete tag) d).subscribers t
      = if t ∈ tags then none else d.subscribers t := by
  induction tags with
  | nil => intro d; simp
  | cons a rest ih =>
    intro d
    simp only [List.foldl_cons]
    rw [ih]
    by_cases h1 : t ∈ rest
    · simp [h1]
    · by_cases h2 : t = a
      · simp [h1, h2]
      · simp [h1, h2]

theorem foldl_delete_logger (tags : List String) :
    ∀ d : dispatcher, (tags.foldl (fun acc tag => acc.delete tag) d).logger = d.logger := by
  induction tags with
  | nil => intro d; rfl
  | cons a rest ih =>
    intro d
    simp only [List.foldl_cons]
    rw [ih]
    rfl

theorem UnsubscribeAll_subscribers (d : dispatcher) (tags : List String) (t : String) :
    (d.UnsubscribeAll tags).subscribers t
      = if tags = [] ∨ t ∈ tags then none else d.subscribers t := by
  unfold dispatcher.UnsubscribeAll
  cases tags with
  | nil => simp
  | cons a rest =>
    simp only [List.length_cons, Nat.succ_ne_zero, if_false]
    rw [foldl_delete]
    simp

theorem UnsubscribeAll_logger (d : dispatcher) (tags : List String) :
    (d.UnsubscribeAll tags).logger = d.logger := by
  unfold dispatcher.UnsubscribeAll
  split
  · rfl
  · exact foldl_delete_logger tags d

theorem expectedReports_length (logger : Option Logger) (new : List Invocation) :
    (expectedReports logger new).length
      = if logger.isSome then new.countP Invocation.panicked else 0 := by
  cases logger with
  | none =>
    have : ∀ l : List Invocation, expectedReports none l = [] := by
      intro l
      induction l with
      | nil => rfl
      | cons a l ih =>
        simp only [expectedReports, List.filterMap_cons, reportOf] at ih ⊢
        exact ih
    simp [this]
  | some lg =>
    simp only [Option.isSome_some, if_true]
    induction new with
    | nil => rfl
    | cons a l ih =>
      cases ho : a.outcome with
      | returned =>
        have hp : Invocation.panicked a = false := by simp [Invocation.panicked, ho]
        simp only [expectedReports, List.filterMap_cons, reportOf, ho] at ih ⊢
        rw [ih]
        simp [List.countP_cons, hp]
      | panicked v =>
        have hp : Invocation.panicked a = true := by simp [Invocation.panicked, ho]
        simp only [expectedReports, List.filterMap_cons, reportOf, ho, List.length_cons] at ih ⊢
        rw [ih]
        simp [List.countP_cons, hp]

/-! ## Lemmas on call sequences -/

theorem get_congr {d e : dispatcher} {t : String} (h : d.subscribers t = e.subscribers t) :
    d.get t = e.get t := by
  simp [dispatcher.get, h]

theorem publishSync_of_get_nil {σ : Type} (d : dispatcher) (hs : Handlers σ) (event : Event)
    (rt : Runtime σ) (h : d.get event.Tag = []) :
    d.PublishSync hs event rt = (rt, Outcome.returned) := by
  simp [dispatcher.PublishSync, h, dispatcher.publishLoop]

theorem call_preserves_nodup (d : dispatcher) (c : Call) (hinv : ∀ t, (d.get t).Nodup) :
    ∀ t, ((d.call c).get t).Nodup := by
  intro t
  cases c with
  | Subscribe tag handlers =>
    simp only [dispatcher.call]
    by_cases ht : t = tag
    · subst ht
      rw [Subscribe_get]
      exact nodup_foldl_addHandler _ _ (hinv t)
    · rw [get_congr (Subscribe_other d tag handlers t ht)]
      exact hinv t
  | Unsubscribe tag handlers =>
    simp only [dispatcher.call]
    by_cases ht : t = tag
    · subst ht
      by_cases hne : handlers = []
      · subst hne
        simp [dispatcher.Unsubscribe, dispatcher.get]
      · rw [Unsubscribe_get d t handlers hne]
        exact nodup_foldl_erase _ _ (hinv t)
    · rw [get_congr (Unsubscribe_other d tag handlers t ht)]
      exact hinv t
  | UnsubscribeAll tags =>
    simp only [dispatcher.call]
    by_cases hc : tags = [] ∨ t ∈ tags
    · have : (d.UnsubscribeAll tags).get t = [] := by
        simp [dispatcher.get, UnsubscribeAll_subscribers, hc]
      rw [this]
      exact List.nodup_nil
    · have : (d.UnsubscribeAll tags).subscribers t = d.subscribers t := by
        rw [UnsubscribeAll_subscribers, if_neg hc]
      rw [get_congr this]
      exact hinv t
  | WithLogger logger =>
    exact hinv t

theorem foldl_call_nodup (calls : List Call) :
    ∀ d : dispatcher, (∀ t, (d.get t).Nodup) →
      ∀ t, ((calls.foldl dispatcher.call d).get t).Nodup := by
  induction calls with
  | nil => intro d hd; exact hd
  | cons c rest ih =>
    intro d hd
    simp only [List.foldl_cons]
    exact ih _ (call_preserves_nodup d c hd)

theorem reach_nodup (calls : List Call) (t : String) : ((reach calls).get t).Nodup := by
  apply foldl_call_nodup
  intro t
  simp [dispatcher.get, NewDispatcher]

theorem expectedReports_none (invs : List Invocation) : expectedReports none invs = [] := by
  induction invs with
  | nil => rfl
  | cons a l ih =>
    simp only [expectedReports, List.filterMap_cons, reportOf] at ih ⊢
    exact ih

theorem foldl_unsubscribe_some (tag : String) (hs : List Handler) :
    ∀ (d : dispatcher) (s : List Handler), d.subscribers tag = some s →
      ∃ s1, (hs.foldl (fun acc h => acc.unsubscribe tag h) d).subscribers tag = some s1 := by
  induction hs with
  | nil => intro d s hd; exact ⟨s, hd⟩
  | cons h rest ih =>
    intro d s hd
    simp only [List.foldl_cons]
    have h1 := unsubscribe_at d tag h
    by_cases hm : h ∈ d.get tag
    · rw [if_pos hm] at h1
      exact ih _ _ h1
    · rw [if_neg hm, hd] at h1
      exact ih _ _ h1

theorem call_removes_iff (d : dispatcher) (T : String) (s : List Handler)
    (hd : d.subscribers T = some s) (c : Call) :
    (d.call c).subscribers T = none ↔ removesEntry T c = true := by
  cases c with
  | Subscribe tag handlers =>
    simp only [dispatcher.call, removesEntry, Bool.false_eq_true, iff_false]
    by_cases ht : T = tag
    · subst ht
      by_cases hne : handlers = []
      · subst hne
        simp [dispatcher.Subscribe, hd]
      · rw [Subscribe_at d T handlers hne]
        simp
    · rw [Subscribe_other d tag handlers T ht, hd]
      simp
  | Unsubscribe tag handlers =>
    simp only [dispatcher.call, removesEntry, Bool.and_eq_true, decide_eq_true_eq,
      List.isEmpty_iff]
    by_cases ht : T = tag
    · subst ht
      by_cases hne : handlers = []
      · subst hne
        simp [dispatcher.Unsubscribe]
      · have hlen : handlers.length ≠ 0 := by simpa using hne
        obtain ⟨s1, hs1⟩ := foldl_unsubscribe_some T handlers d s hd
        simp [dispatcher.Unsubscribe, hlen, hs1, hne]
    · rw [Unsubscribe_other d tag handlers T ht, hd]
      simp [Ne.symm ht]
  | UnsubscribeAll tags =>
    simp only [dispatcher.call, removesEntry, Bool.or_eq_true, decide_eq_true_eq,
      List.isEmpty_iff]
    rw [UnsubscribeAll_subscribers]
    by_cases hc : tags = [] ∨ T ∈ tags
    · simp [hc]
    · simp [hc, hd]
  | WithLogger logger =>
    simp [dispatcher.call, removesEntry, dispatcher.WithLogger, hd]

theorem mem_expectedReports (logger : Option Logger) (calls : List Invocation) :
    ∀ r ∈ expectedReports logger calls,
      ∃ inv ∈ calls, ∃ v, inv.outcome = Outcome.panicked v ∧ logger = some r.1 ∧
        r.2.handler = inv.handler ∧ r.2.event = inv.event ∧ r.2.err = v := by
  intro r hr
  simp only [expectedReports, List.mem_filterMap] at hr
  obtain ⟨inv, hinv, hrep⟩ := hr
  refine ⟨inv, hinv, ?_⟩
  cases logger with
  | none => simp [reportOf] at hrep
  | some l =>
    cases ho : inv.outcome with
    | returned => simp [reportOf, ho] at hrep
    | panicked v =>
      simp only [reportOf, ho, Option.some.injEq] at hrep
      subst hrep
      exact ⟨v, rfl, rfl, rfl, rfl, rfl⟩

/-! ## The claims -/

/-- Claim C1. On a new dispatcher, `Subscribe(T, H...)` followed by `PublishSync` of an
event with tag `T` returns normally and calls exactly the non-nil handlers of `H`, each
once, in argument order with a repeated handler kept at its first occurrence: the world
afterwards is the one obtained by running these handlers in that order, each call
receives the published event, no other handler is called and nothing is logged. -/
theorem subscribe_then_publishSync_invokes_each_once {σ : Type} (T : String)
    (H : List Handler) (data : Option EventData) (hs : Handlers σ) (rt : Runtime σ) :
    ((NewDispatcher.Subscribe T H).PublishSync hs (NewEvent T data) rt).2 = Outcome.returned ∧
    ((NewDispatcher.Subscribe T H).PublishSync hs (NewEvent T data) rt).1.world
      = (callEach hs (NewEvent T data)
          (firstOccurrences (H.filter (fun h => h ≠ Handler.nil))) rt.world).2 ∧
    ((NewDispatcher.Subscribe T H).PublishSync hs (NewEvent T data) rt).1.invocations
      = rt.invocations ++ (callEach hs (NewEvent T data)
          (firstOccurrences (H.filter (fun h => h ≠ Handler.nil))) rt.world).1 ∧
    ((NewDispatcher.Subscribe T H).PublishSync hs (NewEvent T data) rt).1.output = rt.output ∧
    (callEach hs (NewEvent T data)
        (firstOccurrences (H.filter (fun h => h ≠ Handler.nil))) rt.world).1.map
          (fun inv => inv.handler)
      = firstOccurrences (H.filter (fun h => h ≠ Handler.nil)) ∧
    (∀ inv ∈ (callEach hs (NewEvent T data)
        (firstOccurrences (H.filter (fun h => h ≠ Handler.nil))) rt.world).1,
      inv.event = NewEvent T data) ∧
    (firstOccurrences (H.filter (fun h => h ≠ Handler.nil))).Sublist H ∧
    ∀ h : Handler, (firstOccurrences (H.filter (fun h => h ≠ Handler.nil))).count h
      = if h ∈ H ∧ h ≠ Handler.nil then 1 else 0 := by
  have hget : (NewDispatcher.Subscribe T H).get (NewEvent T data).Tag
      = firstOccurrences (H.filter (fun h => h ≠ Handler.nil)) := by
    show (NewDispatcher.Subscribe T H).get T = _
    rw [Subscribe_get, ← foldl_addHandler_nil]
    rfl
  have hlog : (NewDispatcher.Subscribe T H).logger = none := by
    rw [Subscribe_logger]
    rfl
  have hps : (NewDispatcher.Subscribe T H).PublishSync hs (NewEvent T data) rt
      = (NewDispatcher.Subscribe T H).publishLoop hs (NewEvent T data)
          (firstOccurrences (H.filter (fun h => h ≠ Handler.nil))) rt := by
    unfold dispatcher.PublishSync
    rw [hget]
  obtain ⟨h1, h2, h3, h4⟩ :=
    publishLoop_calls (NewDispatcher.Subscribe T H) hs (NewEvent T data)
      (firstOccurrences (H.filter (fun h => h ≠ Handler.nil))) rt
  rw [hlog, expectedReports_none, List.append_nil] at h4
  rw [hps]
  refine ⟨h1, h2, h3, h4, callEach_handlers _ _ _ _, callEach_event _ _ _ _, ?_, ?_⟩
  · exact (firstOccurrences_sublist _).trans (List.filter_sublist _)
  · intro h
    rw [List.count_eq_of_nodup (nodup_firstOccurrences _)]
    have hiff : h ∈ firstOccurrences (H.filter (fun h => h ≠ Handler.nil))
        ↔ h ∈ H ∧ h ≠ Handler.nil := by
      rw [mem_firstOccurrences]
      simp [List.mem_filter]
    by_cases hc : h ∈ H ∧ h ≠ Handler.nil
    · rw [if_pos hc, if_pos (hiff.2 hc)]
    · rw [if_neg hc, if_neg (fun x => hc (hiff.1 x))]

/-- Witness of claim C1: handlers 1, nil, 2, 1, 3 subscribed to "foo" on a new dispatcher.
The publish runs handlers 1, 2 and 3 once each (the counter ends at 3), handler 2
panicking, and the claim gives the same world. -/
theorem subscribe_then_publishSync_invokes_each_once_witness :
    (((NewDispatcher.Subscribe "foo" [Handler.ref 1, Handler.nil, Handler.ref 2, Handler.ref 1,
          Handler.ref 3]).PublishSync sampleHandlers (NewEvent "foo" none) freshRuntime).1.world,
      ((NewDispatcher.Subscribe "foo" [Handler.ref 1, Handler.nil, Handler.ref 2, Handler.ref 1,
          Handler.ref 3]).PublishSync sampleHandlers (NewEvent "foo" none)
            freshRuntime).1.invocations.map (fun inv => (inv.handler, inv.outcome)),
      ((NewDispatcher.Subscribe "foo" [Handler.ref 1, Handler.nil, Handler.ref 2, Handler.ref 1,
          Handler.ref 3]).PublishSync sampleHandlers (NewEvent "foo" none) freshRuntime).2)
      = (3, [(Handler.ref 1, Outcome.returned),
             (Handler.ref 2, Outcome.panicked (PanicValue.value "oops")),
             (Handler.ref 3, Outcome.returned)], Outcome.returned) ∧
    ((NewDispatcher.Subscribe "foo" [Handler.ref 1, Handler.nil, Handler.ref 2, Handler.ref 1,
        Handler.ref 3]).PublishSync sampleHandlers (NewEvent "foo" none) freshRuntime).1.world
      = (callEach sampleHandlers (NewEvent "foo" none)
          (firstOccurrences ([Handler.ref 1, Handler.nil, Handler.ref 2, Handler.ref 1,
            Handler.ref 3].filter (fun h => h ≠ Handler.nil))) freshRuntime.world).2 :=
  ⟨by decide,
   (subscribe_then_publishSync_invokes_each_once "foo"
      [Handler.ref 1, Handler.nil, Handler.ref 2, Handler.ref 1, Handler.ref 3] none
      sampleHandlers freshRuntime).2.1⟩

/-- Claim C2. In every dispatcher reached from a new one by `Subscribe`, `Unsubscribe`,
`UnsubscribeAll` (and `WithLogger`) calls, the handler sequence of every tag has no
repeated handler: each handler occurs in it at most once. -/
theorem reachable_sequence_has_no_duplicate (calls : List Call) (T : String) :
    ((reach calls).get T).Nodup ∧ ∀ h : Handler, ((reach calls).get T).count h ≤ 1 := by
  have hn := reach_nodup calls T
  exact ⟨hn, fun h => List.nodup_iff_count_le_one.1 hn h⟩

/-- Claim C3. In a reachable dispatcher, `Unsubscribe(T, h)` of a handler `h` registered
for `T` removes only `h`: the sequence of `T` becomes the previous one without `h`, the
others in the same order, and every other tag keeps its entry; a following `PublishSync`
of an event with tag `T` calls every other handler of `T` exactly once and never `h`. -/
theorem unsubscribe_removes_only_that_handler {σ : Type} (calls : List Call) (T : String)
    (h : Handler) (data : Option EventData) (hs : Handlers σ) (rt : Runtime σ)
    (hreg : h ∈ (reach calls).get T) :
    ((reach calls).Unsubscribe T [h]).subscribers T
      = some (((reach calls).get T).filter (fun g => g ≠ h)) ∧
    (∀ t, t ≠ T → ((reach calls).Unsubscribe T [h]).subscribers t = (reach calls).subscribers t) ∧
    (((reach calls).Unsubscribe T [h]).PublishSync hs (NewEvent T data) rt).2
      = Outcome.returned ∧
    ∃ new : List Invocation,
      (((reach calls).Unsubscribe T [h]).PublishSync hs (NewEvent T data) rt).1.invocations
        = rt.invocations ++ new ∧
      new.map (fun inv => inv.handler) = ((reach calls).get T).filter (fun g => g ≠ h) ∧
      (new.map (fun inv => inv.handler)).count h = 0 ∧
      ∀ g, g ≠ h → g ∈ (reach calls).get T → (new.map (fun inv => inv.handler)).count g = 1 := by
  have hn := reach_nodup calls T
  have hfilter : ((reach calls).get T).erase h = ((reach calls).get T).filter (fun g => g ≠ h) := by
    rw [hn.erase_eq_filter]
    apply List.filter_congr
    intro x _
    by_cases hx : x = h <;> simp [hx]
  have hsub : ((reach calls).Unsubscribe T [h]).subscribers T
      = some (((reach calls).get T).filter (fun g => g ≠ h)) := by
    have := unsubscribe_at (reach calls) T h
    rw [if_pos hreg, hfilter] at this
    exact this
  obtain ⟨new, h1, h2, h3, _, _⟩ :=
    publishLoop_spec ((reach calls).Unsubscribe T [h]) hs (NewEvent T data)
      (((reach calls).Unsubscribe T [h]).get (NewEvent T data).Tag) rt
  have hget : ((reach calls).Unsubscribe T [h]).get (NewEvent T data).Tag
      = ((reach calls).get T).filter (fun g => g ≠ h) := get_of_some hsub
  rw [hget] at h3
  refine ⟨hsub, ?_, h1, new, h2, h3, ?_, ?_⟩
  · intro t ht
    exact Unsubscribe_other _ T [h] t ht
  · rw [h3, List.count_eq_zero]
    simp [List.mem_filter]
  · intro g hg hmem
    rw [h3]
    apply List.count_eq_one_of_mem (hn.filter _)
    simp [List.mem_filter, hmem, hg]

/-- Witness of claim C3: with handlers 1, 2, 3 subscribed to "foo", handler 2 is registered
and unsubscribing it leaves 1 and 3. -/
theorem unsubscribe_removes_only_that_handler_witness :
    Handler.ref 2 ∈ (reach [Call.Subscribe "foo"
        [Handler.ref 1, Handler.ref 2, Handler.ref 3]]).get "foo" ∧
    ((reach [Call.Subscribe "foo" [Handler.ref 1, Handler.ref 2, Handler.ref 3]]).Unsubscribe
        "foo" [Handler.ref 2]).subscribers "foo"
      = some (((reach [Call.Subscribe "foo"
          [Handler.ref 1, Handler.ref 2, Handler.ref 3]]).get "foo").filter
            (fun g => g ≠ Handler.ref 2)) :=
  ⟨by decide,
   (unsubscribe_removes_only_that_handler
      [Call.Subscribe "foo" [Handler.ref 1, Handler.ref 2, Handler.ref 3]] "foo"
      (Handler.ref 2) none sampleHandlers freshRuntime (by decide)).1⟩

/-- Counterexample to claim C4 as stated: after `Subscribe("foo", h)` the sequence of "foo"
is exactly `[h]`, and after `Unsubscribe("foo", h)` the registry still has an entry for
"foo", holding the empty sequence. -/
theorem unsubscribe_last_handler_keeps_entry :
    (NewDispatcher.Subscribe "foo" [Handler.ref 1]).subscribers "foo" = some [Handler.ref 1] ∧
    ((NewDispatcher.Subscribe "foo" [Handler.ref 1]).Unsubscribe "foo"
        [Handler.ref 1]).subscribers "foo" = some [] ∧
    ((NewDispatcher.Subscribe "foo" [Handler.ref 1]).Unsubscribe "foo"
        [Handler.ref 1]).subscribers "foo" ≠ none := by
  refine ⟨by decide, by decide, by decide⟩

/-- Claim C4, amended. When the sequence of `T` is exactly `[h]`, `Unsubscribe(T, h)` leaves
an entry for `T` that holds the empty sequence, so a following `PublishSync` of an event
with tag `T` calls no handler and changes nothing.  The entry is removed by
`Unsubscribe(T)` without handlers, by `UnsubscribeAll(T)` and by `UnsubscribeAll()`
without tags; both before and after `Unsubscribe(T, h)`, one call leaves `T` without an
entry exactly when it is `Unsubscribe(T)` without handlers, `UnsubscribeAll()` without
tags, or `UnsubscribeAll(tags...)` with `T` among the tags. -/
theorem unsubscribe_last_handler_leaves_empty_entry {σ : Type} (d : dispatcher) (T : String)
    (h : Handler) (data : Option EventData) (hs : Handlers σ) (rt : Runtime σ)
    (hseq : d.subscribers T = some [h]) :
    (d.Unsubscribe T [h]).subscribers T = some [] ∧
    (d.Unsubscribe T [h]).get T = [] ∧
    (d.Unsubscribe T [h]).PublishSync hs (NewEvent T data) rt = (rt, Outcome.returned) ∧
    (d.Unsubscribe T []).subscribers T = none ∧
    (d.UnsubscribeAll [T]).subscribers T = none ∧
    (d.UnsubscribeAll []).subscribers T = none ∧
    (∀ c : Call, (d.call c).subscribers T = none ↔ removesEntry T c = true) ∧
    (∀ c : Call, ((d.Unsubscribe T [h]).call c).subscribers T = none
      ↔ removesEntry T c = true) := by
  have hget : d.get T = [h] := get_of_some hseq
  have hsub : (d.Unsubscribe T [h]).subscribers T = some [] := by
    have := unsubscribe_at d T h
    rw [hget] at this
    simpa using this
  refine ⟨hsub, get_of_some hsub,
    publishSync_of_get_nil _ hs _ rt (get_of_some hsub), ?_, ?_, ?_,
    call_removes_iff d T [h] hseq, call_removes_iff _ T [] hsub⟩
  · simp [dispatcher.Unsubscribe]
  · simp [UnsubscribeAll_subscribers]
  · simp [UnsubscribeAll_subscribers]

/-- Witness of the amended claim C4 on the dispatcher with one handler subscribed to "foo":
the entry stays, empty, and a publish to "foo" changes nothing. -/
theorem unsubscribe_last_handler_leaves_empty_entry_witness :
    (NewDispatcher.Subscribe "foo" [Handler.ref 1]).subscribers "foo" = some [Handler.ref 1] ∧
    ((NewDispatcher.Subscribe "foo" [Handler.ref 1]).Unsubscribe "foo"
        [Handler.ref 1]).subscribers "foo" = some [] ∧
    ((NewDispatcher.Subscribe "foo" [Handler.ref 1]).Unsubscribe "foo"
        [Handler.ref 1]).PublishSync sampleHandlers (NewEvent "foo" none) freshRuntime
      = (freshRuntime, Outcome.returned) ∧
    ((NewDispatcher.Subscribe "foo" [Handler.ref 1]).Unsubscribe "foo" []).subscribers "foo"
      = none :=
  ⟨by decide,
   (unsubscribe_last_handler_leaves_empty_entry (NewDispatcher.Subscribe "foo" [Handler.ref 1])
      "foo" (Handler.ref 1) none sampleHandlers freshRuntime (by decide)).1,
   (unsubscribe_last_handler_leaves_empty_entry (NewDispatcher.Subscribe "foo" [Handler.ref 1])
      "foo" (Handler.ref 1) none sampleHandlers freshRuntime (by decide)).2.2.1,
   (unsubscribe_last_handler_leaves_empty_entry (NewDispatcher.Subscribe "foo" [Handler.ref 1])
      "foo" (Handler.ref 1) none sampleHandlers freshRuntime (by decide)).2.2.2.1⟩

/-- Claim C5. Whatever the handlers do, return or panic, `PublishSync` returns normally
and has called every handler of the tag's sequence, one call per position of the
sequence, in the order of the sequence, each with the published event: the world
afterwards is the one obtained by running the handlers of the sequence one after the
other, a panicking handler included, and the handlers after it as well. -/
theorem publishSync_survives_panicking_handlers {σ : Type} (d : dispatcher) (hs : Handlers σ)
    (event : Event) (rt : Runtime σ) :
    (d.PublishSync hs event rt).2 = Outcome.returned ∧
    (d.PublishSync hs event rt).1.world = (callEach hs event (d.get event.Tag) rt.world).2 ∧
    (d.PublishSync hs event rt).1.invocations
      = rt.invocations ++ (callEach hs event (d.get event.Tag) rt.world).1 ∧
    (callEach hs event (d.get event.Tag) rt.world).1.map (fun inv => inv.handler)
      = d.get event.Tag ∧
    (∀ inv ∈ (callEach hs event (d.get event.Tag) rt.world).1, inv.event = event) ∧
    ∀ h : Handler,
      ((callEach hs event (d.get event.Tag) rt.world).1.map (fun inv => inv.handler)).count h
        = (d.get event.Tag).count h := by
  obtain ⟨h1, h2, h3, _⟩ := publishLoop_calls d hs event (d.get event.Tag) rt
  exact ⟨h1, h2, h3, callEach_handlers _ _ _ _, callEach_event _ _ _ _,
    fun h => by rw [callEach_handlers]⟩

/-- Witness of claim C5: handler 2, which panics, is subscribed before handler 1.  The
publish returns normally and has run both (the counter ends at 2), and the claim gives
the same world. -/
theorem publishSync_survives_panicking_handlers_witness :
    (((NewDispatcher.Subscribe "foo" [Handler.ref 2, Handler.ref 1]).PublishSync sampleHandlers
          (NewEvent "foo" none) freshRuntime).1.world,
      ((NewDispatcher.Subscribe "foo" [Handler.ref 2, Handler.ref 1]).PublishSync sampleHandlers
          (NewEvent "foo" none) freshRuntime).1.invocations.map
            (fun inv => (inv.handler, inv.outcome)),
      ((NewDispatcher.Subscribe "foo" [Handler.ref 2, Handler.ref 1]).PublishSync sampleHandlers
          (NewEvent "foo" none) freshRuntime).2)
      = (2, [(Handler.ref 2, Outcome.panicked (PanicValue.value "oops")),
             (Handler.ref 1, Outcome.returned)], Outcome.returned) ∧
    ((NewDispatcher.Subscribe "foo" [Handler.ref 2, Handler.ref 1]).PublishSync sampleHandlers
        (NewEvent "foo" none) freshRuntime).1.world
      = (callEach sampleHandlers (NewEvent "foo" none)
          ((NewDispatcher.Subscribe "foo" [Handler.ref 2, Handler.ref 1]).get
            (NewEvent "foo" none).Tag) freshRuntime.world).2 :=
  ⟨by decide,
   (publishSync_survives_panicking_handlers
      (NewDispatcher.Subscribe "foo" [Handler.ref 2, Handler.ref 1]) sampleHandlers
      (NewEvent "foo" none) freshRuntime).2.1⟩

/-- Claim C6. `Unsubscribe(T)` without handlers removes the entry of `T`, and a following
`PublishSync` of an event with tag `T` calls no handler and changes nothing. -/
theorem unsubscribe_without_handlers_removes_tag {σ : Type} (d : dispatcher) (T : String)
    (data : Option EventData) (hs : Handlers σ) (rt : Runtime σ) :
    (d.Unsubscribe T []).subscribers T = none ∧
    (d.Unsubscribe T []).get T = [] ∧
    (d.Unsubscribe T []).PublishSync hs (NewEvent T data) rt = (rt, Outcome.returned) := by
  have hsub : (d.Unsubscribe T []).subscribers T = none := by simp [dispatcher.Unsubscribe]
  have hget : (d.Unsubscribe T []).get T = [] := by simp [dispatcher.get, hsub]
  exact ⟨hsub, hget, publishSync_of_get_nil _ hs _ rt hget⟩

/-- Claim C7. `UnsubscribeAll()` without tags leaves no entry for any tag, and a following
`PublishSync` of any event calls no handler and changes nothing. -/
theorem unsubscribeAll_without_tags_clears_registry {σ : Type} (d : dispatcher)
    (hs : Handlers σ) (event : Event) (rt : Runtime σ) :
    (∀ t : String, (d.UnsubscribeAll []).subscribers t = none) ∧
    (d.UnsubscribeAll []).PublishSync hs event rt = (rt, Outcome.returned) := by
  have hsub : ∀ t : String, (d.UnsubscribeAll []).subscribers t = none := by
    intro t
    simp [UnsubscribeAll_subscribers]
  refine ⟨hsub, publishSync_of_get_nil _ hs _ rt ?_⟩
  simp [dispatcher.get, hsub]

/-- Claim C8. For a non-empty list of tags, `UnsubscribeAll(tags...)` leaves no entry for
each named tag, whether it had one or not, and leaves the entry of every tag that is not
named, and the logger, as they were. -/
theorem unsubscribeAll_deletes_named_tags_only (d : dispatcher) (tags : List String)
    (hne : tags ≠ []) :
    (∀ t, t ∈ tags → (d.UnsubscribeAll tags).subscribers t = none) ∧
    (∀ t, t ∉ tags → (d.UnsubscribeAll tags).subscribers t = d.subscribers t) ∧
    (d.UnsubscribeAll tags).logger = d.logger := by
  refine ⟨?_, ?_, UnsubscribeAll_logger d tags⟩
  · intro t ht
    simp [UnsubscribeAll_subscribers, ht]
  · intro t ht
    simp [UnsubscribeAll_subscribers, ht, hne]

/-- Witness of claim C8: deleting "foo" and "nope" from a registry holding "foo" and "bar". -/
theorem unsubscribeAll_deletes_named_tags_only_witness :
    ["foo", "nope"] ≠ [] ∧
    (((NewDispatcher.Subscribe "foo" [Handler.ref 1]).Subscribe "bar"
        [Handler.ref 2]).UnsubscribeAll ["foo", "nope"]).subscribers "foo" = none ∧
    (((NewDispatcher.Subscribe "foo" [Handler.ref 1]).Subscribe "bar"
        [Handler.ref 2]).UnsubscribeAll ["foo", "nope"]).subscribers "bar"
      = ((NewDispatcher.Subscribe "foo" [Handler.ref 1]).Subscribe "bar"
          [Handler.ref 2]).subscribers "bar" :=
  ⟨by decide,
   (unsubscribeAll_deletes_named_tags_only
      ((NewDispatcher.Subscribe "foo" [Handler.ref 1]).Subscribe "bar" [Handler.ref 2])
      ["foo", "nope"] (by decide)).1 "foo" (by decide),
   (unsubscribeAll_deletes_named_tags_only
      ((NewDispatcher.Subscribe "foo" [Handler.ref 1]).Subscribe "bar" [Handler.ref 2])
      ["foo", "nope"] (by decide)).2.1 "bar" (by decide)⟩

/-- Claim C9. `Subscribe` is idempotent on every dispatcher: a second `Subscribe(T, H...)`
with the same arguments changes nothing.  In particular, on a reachable dispatcher,
`Subscribe(T, h)` called twice leaves `h` once in the sequence of `T`, and a following
`PublishSync` of an event with tag `T` calls `h` exactly once. -/
theorem subscribe_is_idempotent {σ : Type} (d : dispatcher) (T : String) (H : List Handler)
    (calls : List Call) (id : Nat) (data : Option EventData) (hs : Handlers σ)
    (rt : Runtime σ) :
    (d.Subscribe T H).Subscribe T H = d.Subscribe T H ∧
    ((((reach calls).Subscribe T [Handler.ref id]).Subscribe T [Handler.ref id]).get T).count
      (Handler.ref id) = 1 ∧
    ∃ new : List Invocation,
      ((((reach calls).Subscribe T [Handler.ref id]).Subscribe T [Handler.ref id]).PublishSync
        hs (NewEvent T data) rt).1.invocations = rt.invocations ++ new ∧
      (new.map (fun inv => inv.handler)).count (Handler.ref id) = 1 := by
  have hidem : ∀ (e : dispatcher) (K : List Handler),
      (e.Subscribe T K).Subscribe T K = e.Subscribe T K := by
    intro e K
    apply dispatcher_ext
    · intro t
      by_cases ht : t = T
      · subst ht
        by_cases hK : K = []
        · subst hK
          simp [dispatcher.Subscribe]
        · rw [Subscribe_at _ t K hK, Subscribe_at e t K hK, Subscribe_get,
            foldl_addHandler_idem]
      · rw [Subscribe_other _ T K t ht]
    · rw [Subscribe_logger]
  have hcount : ((((reach calls).Subscribe T [Handler.ref id]).Subscribe T
      [Handler.ref id]).get T).count (Handler.ref id) = 1 := by
    rw [hidem, Subscribe_get]
    apply List.count_eq_one_of_mem (nodup_foldl_addHandler _ _ (reach_nodup calls T))
    rw [mem_foldl_addHandler]
    exact Or.inr ⟨List.mem_singleton.2 rfl, by simp⟩
  obtain ⟨new, _, h2, h3, _, _⟩ :=
    publishLoop_spec (((reach calls).Subscribe T [Handler.ref id]).Subscribe T [Handler.ref id])
      hs (NewEvent T data)
      ((((reach calls).Subscribe T [Handler.ref id]).Subscribe T [Handler.ref id]).get
        (NewEvent T data).Tag) rt
  refine ⟨hidem d H, hcount, new, h2, ?_⟩
  rw [h3]
  exact hcount

/-- Claim C10. A handler panic during a publish is reported exactly when a logger is
configured.  With the logger set by `WithLogger`, `PublishSync` extends the output by one
report for each call of a handler that panicked, naming the handler, the event and the
panic value, and by none for a call that returned; without a logger the output does not
grow.  The calls are those of running the handlers of the sequence in order.  `Publish`
does the same under every schedule, for the order in which the handlers ran.  In both
cases the publish returns normally. -/
theorem panic_reported_iff_logger_configured {σ : Type} (d : dispatcher)
    (logger : Option Logger) (hs : Handlers σ) (event : Event) (sched : List Nat)
    (rt : Runtime σ) :
    ((d.WithLogger logger).PublishSync hs event rt).2 = Outcome.returned ∧
    ((d.WithLogger logger).PublishSync hs event rt).1.output
      = rt.output ++ expectedReports logger (callEach hs event (d.get event.Tag) rt.world).1 ∧
    ((d.WithLogger logger).PublishSync hs event rt).1.invocations
      = rt.invocations ++ (callEach hs event (d.get event.Tag) rt.world).1 ∧
    (∀ inv ∈ (callEach hs event (d.get event.Tag) rt.world).1, inv.event = event) ∧
    (∀ calls : List Invocation, (expectedReports logger calls).length
      = if logger.isSome then calls.countP Invocation.panicked else 0) ∧
    (∀ calls : List Invocation, ∀ r ∈ expectedReports logger calls,
      ∃ inv ∈ calls, ∃ v, inv.outcome = Outcome.panicked v ∧ logger = some r.1 ∧
        r.2.handler = inv.handler ∧ r.2.event = inv.event ∧ r.2.err = v) ∧
    ((d.WithLogger none).PublishSync hs event rt).1.output = rt.output ∧
    ∃ (st : Async σ) (order : List Handler),
      (d.WithLogger logger).Publish hs event sched rt = some (st, Outcome.returned) ∧
      order.Perm (d.get event.Tag) ∧
      st.rt.invocations = rt.invocations ++ (callEach hs event order rt.world).1 ∧
      st.rt.output
        = rt.output ++ expectedReports logger (callEach hs event order rt.world).1 := by
  obtain ⟨h1, _, h3, h4⟩ :=
    publishLoop_calls (d.WithLogger logger) hs event ((d.WithLogger logger).get event.Tag) rt
  obtain ⟨_, _, _, k4⟩ :=
    publishLoop_calls (d.WithLogger none) hs event ((d.WithLogger none).get event.Tag) rt
  obtain ⟨st, order, p1, _, _, _, p5, _, p7, _, p9⟩ :=
    Publish_calls (d.WithLogger logger) hs event sched rt
  refine ⟨h1, h4, h3, callEach_event _ _ _ _, expectedReports_length logger,
    mem_expectedReports logger, ?_, st, order, p1, p5, p7, p9⟩
  have : (d.WithLogger none).logger = none := rfl
  rw [this, expectedReports_none, List.append_nil] at k4
  exact k4

/-- Witness of claim C10: handlers 1, 2, 3 subscribed to "foo", handler 2 panicking.  With
logger 7 both publish methods write one report, on logger 7, naming handler 2 and "oops";
without a logger they write none; and the claim gives the output of `PublishSync`. -/
theorem panic_reported_iff_logger_configured_witness :
    ((((NewDispatcher.Subscribe "foo" [Handler.ref 1, Handler.ref 2, Handler.ref 3]).WithLogger
          (some 7)).PublishSync sampleHandlers (NewEvent "foo" none) freshRuntime).1.output.map
            (fun r => (r.1, r.2.fmt, r.2.handler, r.2.event.Tag, r.2.err)),
      (((NewDispatcher.Subscribe "foo" [Handler.ref 1, Handler.ref 2, Handler.ref 3]).WithLogger
          none).PublishSync sampleHandlers (NewEvent "foo" none) freshRuntime).1.output.length,
      (((NewDispatcher.Subscribe "foo" [Handler.ref 1, Handler.ref 2, Handler.ref 3]).WithLogger
          (some 7)).Publish sampleHandlers (NewEvent "foo" none) [2, 0] freshRuntime).map
            (fun p => p.1.rt.output.map (fun r => (r.1, r.2.handler, r.2.err))),
      (((NewDispatcher.Subscribe "foo" [Handler.ref 1, Handler.ref 2, Handler.ref 3]).WithLogger
          none).Publish sampleHandlers (NewEvent "foo" none) [2, 0] freshRuntime).map
            (fun p => p.1.rt.output.length))
      = ([(7, "handler %#v panicked on event %#v with: %s", Handler.ref 2, "foo",
            PanicValue.value "oops")], 0,
         some [(7, Handler.ref 2, PanicValue.value "oops")], some 0) ∧
    (((NewDispatcher.Subscribe "foo" [Handler.ref 1, Handler.ref 2, Handler.ref 3]).WithLogger
        (some 7)).PublishSync sampleHandlers (NewEvent "foo" none) freshRuntime).1.output
      = freshRuntime.output ++ expectedReports (some 7)
          (callEach sampleHandlers (NewEvent "foo" none)
            ((NewDispatcher.Subscribe "foo" [Handler.ref 1, Handler.ref 2, Handler.ref 3]).get
              (NewEvent "foo" none).Tag) freshRuntime.world).1 :=
  ⟨by rfl,
   (panic_reported_iff_logger_configured
      (NewDispatcher.Subscribe "foo" [Handler.ref 1, Handler.ref 2, Handler.ref 3]) (some 7)
      sampleHandlers (NewEvent "foo" none) [] freshRuntime).2.1⟩

/-! ## Lemmas on nil handlers -/

theorem mem_of_mem_foldl_erase (hs : List Handler) :
    ∀ (s : List Handler) (x : Handler), x ∈ hs.foldl (fun s h => s.erase h) s → x ∈ s := by
  induction hs with
  | nil => intro s x hx; exact hx
  | cons h rest ih =>
    intro s x hx
    simp only [List.foldl_cons] at hx
    exact List.mem_of_mem_erase (ih _ x hx)

theorem call_preserves_no_nil (d : dispatcher) (c : Call)
    (hinv : ∀ t, Handler.nil ∉ d.get t) : ∀ t, Handler.nil ∉ (d.call c).get t := by
  intro t
  cases c with
  | Subscribe tag handlers =>
    simp only [dispatcher.call]
    by_cases ht : t = tag
    · subst ht
      rw [Subscribe_get, mem_foldl_addHandler]
      intro hmem
      rcases hmem with h1 | h2
      · exact hinv t h1
      · exact h2.2 rfl
    · rw [get_congr (Subscribe_other d tag handlers t ht)]
      exact hinv t
  | Unsubscribe tag handlers =>
    simp only [dispatcher.call]
    by_cases ht : t = tag
    · subst ht
      by_cases hne : handlers = []
      · subst hne
        simp [dispatcher.Unsubscribe, dispatcher.get]
      · rw [Unsubscribe_get d t handlers hne]
        exact fun hmem => hinv t (mem_of_mem_foldl_erase _ _ _ hmem)
    · rw [get_congr (Unsubscribe_other d tag handlers t ht)]
      exact hinv t
  | UnsubscribeAll tags =>
    simp only [dispatcher.call]
    by_cases hc : tags = [] ∨ t ∈ tags
    · have : (d.UnsubscribeAll tags).get t = [] := by
        simp [dispatcher.get, UnsubscribeAll_subscribers, hc]
      rw [this]
      exact List.not_mem_nil _
    · have : (d.UnsubscribeAll tags).subscribers t = d.subscribers t := by
        rw [UnsubscribeAll_subscribers, if_neg hc]
      rw [get_congr this]
      exact hinv t
  | WithLogger logger =>
    exact hinv t

theorem foldl_call_no_nil (calls : List Call) :
    ∀ d : dispatcher, (∀ t, Handler.nil ∉ d.get t) →
      ∀ t, Handler.nil ∉ (calls.foldl dispatcher.call d).get t := by
  induction calls with
  | nil => intro d hd; exact hd
  | cons c rest ih =>
    intro d hd
    simp only [List.foldl_cons]
    exact ih _ (call_preserves_no_nil d c hd)

theorem reach_no_nil (calls : List Call) (t : String) : Handler.nil ∉ (reach calls).get t := by
  apply foldl_call_no_nil
  intro t
  simp [dispatcher.get, NewDispatcher]

/-! ## The claims on publishing, events and frames -/

/-- Claim C11. Publishing an event whose tag has no entry is no error: `PublishSync` and
`Publish` return normally, call no handler and write nothing, and the dispatcher is as
before, still without an entry for the tag; the channel that `Publish` hands back is
closed. -/
theorem publish_to_unknown_tag_is_no_error {σ : Type} (hs : Handlers σ) (s : System σ)
    (event : Event) (sched : List Nat) (hno : s.d.subscribers event.Tag = none) :
    System.PublishSync hs s event = (s, Outcome.returned) ∧
    System.Publish hs s event sched = some ((s, true), Outcome.returned) ∧
    (System.PublishSync hs s event).1.d.subscribers event.Tag = none := by
  have hget : s.d.get event.Tag = [] := by simp [dispatcher.get, hno]
  have hsync : System.PublishSync hs s event = (s, Outcome.returned) := by
    unfold System.PublishSync
    rw [publishSync_of_get_nil s.d hs event s.rt hget]
  refine ⟨hsync, ?_, ?_⟩
  · simp [System.Publish, dispatcher.Publish, hget, dispatcher.wait]
  · rw [hsync]
    exact hno

/-- Witness of claim C11: an event with tag "foo" published on a new dispatcher. -/
theorem publish_to_unknown_tag_is_no_error_witness :
    (⟨NewDispatcher, freshRuntime⟩ : System Nat).d.subscribers (NewEvent "foo" none).Tag = none ∧
    System.PublishSync sampleHandlers ⟨NewDispatcher, freshRuntime⟩ (NewEvent "foo" none)
      = (⟨NewDispatcher, freshRuntime⟩, Outcome.returned) ∧
    System.Publish sampleHandlers ⟨NewDispatcher, freshRuntime⟩ (NewEvent "foo" none) []
      = some ((⟨NewDispatcher, freshRuntime⟩, true), Outcome.returned) :=
  ⟨rfl,
   (publish_to_unknown_tag_is_no_error sampleHandlers ⟨NewDispatcher, freshRuntime⟩
      (NewEvent "foo" none) [] rfl).1,
   (publish_to_unknown_tag_is_no_error sampleHandlers ⟨NewDispatcher, freshRuntime⟩
      (NewEvent "foo" none) [] rfl).2.1⟩

/-- Claim C12. Under every schedule, `Publish` starts one goroutine for each handler of
the tag's sequence as it is at the call; each of them calls its handler once with the
event and finishes, panic or not; the world and the output afterwards are those of
running the handlers once each in the order the schedule let them run; and `done` is
closed only after all of them have finished.  A second `Publish` of the same event does
the same again, so every handler is then called twice as often as it occurs in the
sequence: twice when subscribed once. -/
theorem publish_runs_each_handler_once_then_closes {σ : Type} (d : dispatcher)
    (hs : Handlers σ) (event : Event) (sched1 sched2 : List Nat) (rt : Runtime σ) :
    ∃ (st1 st2 : Async σ) (order1 order2 : List Handler),
      d.Publish hs event sched1 rt = some (st1, Outcome.returned) ∧
      order1.Perm (d.get event.Tag) ∧
      st1.moments = (d.get event.Tag).map Moment.launch
        ++ order1.map Moment.finish ++ [Moment.close, Moment.ret] ∧
      st1.done = true ∧ st1.running = [] ∧ st1.wg = 0 ∧
      st1.rt.world = (callEach hs event order1 rt.world).2 ∧
      st1.rt.invocations = rt.invocations ++ (callEach hs event order1 rt.world).1 ∧
      st1.rt.output
        = rt.output ++ expectedReports d.logger (callEach hs event order1 rt.world).1 ∧
      (callEach hs event order1 rt.world).1.map (fun inv => inv.handler) = order1 ∧
      (∀ inv ∈ (callEach hs event order1 rt.world).1, inv.event = event) ∧
      d.Publish hs event sched2 st1.rt = some (st2, Outcome.returned) ∧
      order2.Perm (d.get event.Tag) ∧
      st2.rt.world = (callEach hs event order2 st1.rt.world).2 ∧
      st2.rt.invocations = rt.invocations ++ (callEach hs event order1 rt.world).1
        ++ (callEach hs event order2 st1.rt.world).1 ∧
      ∀ h : Handler,
        (((callEach hs event order1 rt.world).1
            ++ (callEach hs event order2 st1.rt.world).1).map (fun inv => inv.handler)).count h
          = 2 * (d.get event.Tag).count h := by
  obtain ⟨st1, order1, a1, a2, a3, a4, a5, a6, a7, a8, a9⟩ := Publish_calls d hs event sched1 rt
  obtain ⟨st2, order2, b1, _, _, _, b5, b6, b7, _, _⟩ :=
    Publish_calls d hs event sched2 st1.rt
  refine ⟨st1, st2, order1, order2, a1, a5, a8, a4, a3, a2, a6, a7, a9,
    callEach_handlers _ _ _ _, callEach_event _ _ _ _, b1, b5, b6, ?_, ?_⟩
  · rw [b7, a7]
  · intro h
    rw [List.map_append, List.count_append, callEach_handlers, callEach_handlers,
      a5.count_eq, b5.count_eq]
    omega

/-- Witness of claim C12: handlers 1, 2, 3 subscribed to "foo" and a schedule that lets
them finish in the order 3, 1, 2.  Every handler has run once when `done` is closed (the
counter is 3), a second `Publish` brings the counter to 6, and the claim gives a closed
channel for the first call. -/
theorem publish_runs_each_handler_once_then_closes_witness :
    (((NewDispatcher.Subscribe "foo" [Handler.ref 1, Handler.ref 2, Handler.ref 3]).Publish
          sampleHandlers (NewEvent "foo" none) [2, 0] freshRuntime).map
            (fun p => (p.1.moments, p.1.done, p.1.rt.world,
              p.1.rt.invocations.map (fun inv => (inv.handler, inv.outcome)), p.2)),
      (((NewDispatcher.Subscribe "foo" [Handler.ref 1, Handler.ref 2, Handler.ref 3]).Publish
          sampleHandlers (NewEvent "foo" none) [2, 0] freshRuntime).bind
            (fun p => (NewDispatcher.Subscribe "foo"
              [Handler.ref 1, Handler.ref 2, Handler.ref 3]).Publish sampleHandlers
                (NewEvent "foo" none) [] p.1.rt)).map
            (fun p => (p.1.rt.world, p.1.rt.invocations.map (fun inv => inv.handler))))
      = (some ([Moment.launch (Handler.ref 1), Moment.launch (Handler.ref 2),
                Moment.launch (Handler.ref 3), Moment.finish (Handler.ref 3),
                Moment.finish (Handler.ref 1), Moment.finish (Handler.ref 2),
                Moment.close, Moment.ret], true, 3,
               [(Handler.ref 3, Outcome.returned), (Handler.ref 1, Outcome.returned),
                (Handler.ref 2, Outcome.panicked (PanicValue.value "oops"))],
               Outcome.returned),
         some (6, [Handler.ref 3, Handler.ref 1, Handler.ref 2,
                   Handler.ref 1, Handler.ref 2, Handler.ref 3])) ∧
    ∃ st : Async Nat,
      (NewDispatcher.Subscribe "foo" [Handler.ref 1, Handler.ref 2, Handler.ref 3]).Publish
          sampleHandlers (NewEvent "foo" none) [2, 0] freshRuntime
        = some (st, Outcome.returned) ∧ st.done = true :=
  ⟨by rfl,
   match publish_runs_each_handler_once_then_closes
      (NewDispatcher.Subscribe "foo" [Handler.ref 1, Handler.ref 2, Handler.ref 3])
      sampleHandlers (NewEvent "foo" none) [2, 0] [] freshRuntime with
   | ⟨st1, _, _, _, a1, _, _, a4, _⟩ => ⟨st1, a1, a4⟩⟩

/-- Claim C13, the code at the failing input: with one handler subscribed to "foo",
`Publish` hands the channel to its caller only after the handler has been called and has
finished and after `done` has been closed; the caller was blocked until then. -/
theorem publish_returns_only_after_handlers_finished :
    ((NewDispatcher.Subscribe "foo" [Handler.ref 1]).Publish sampleHandlers
        (NewEvent "foo" none) [] freshRuntime).map
          (fun r => (r.1.moments, r.1.done, r.1.rt.world, r.2))
      = some ([Moment.launch (Handler.ref 1), Moment.finish (Handler.ref 1),
                Moment.close, Moment.ret], true, 1, Outcome.returned) := by
  decide

/-- Claim C14. For every event, nil payload included, after `Set(k, v)` the key `k` is
present and `Get(k)` is `v`; every other key keeps its `Has` and `Get`; the payload is
allocated afterwards; and `Tag()` is unchanged. -/
theorem set_then_get_has (e : Event) (k : String) (v : Value) :
    (e.Set k v).Has k = true ∧
    (e.Set k v).Get k = v ∧
    (∀ k2, k2 ≠ k → (e.Set k v).Has k2 = e.Has k2 ∧ (e.Set k v).Get k2 = e.Get k2) ∧
    (e.Set k v).Data.isSome = true ∧
    (e.Set k v).Tag = e.Tag := by
  refine ⟨?_, ?_, ?_, rfl, rfl⟩
  · simp [Event.Set, Event.Has, EventData.lookup]
  · simp [Event.Set, Event.Get, EventData.lookup]
  · intro k2 hk
    cases hd : e.data with
    | none => simp [Event.Set, Event.Has, Event.Get, EventData.lookup, hd, hk]
    | some m => simp [Event.Set, Event.Has, Event.Get, EventData.lookup, hd, hk]

/-- Claim C15. Lookups never fail: for every event, nil payload included, and every key
that is absent from the payload, `Has` is false and `Get` is the nil value. -/
theorem lookup_of_absent_key (e : Event) (key : String)
    (habsent : EventData.lookup e.data key = none) :
    e.Has key = false ∧ e.Get key = Value.nil := by
  simp [Event.Has, Event.Get, habsent]

/-- Witness of claim C15: the event of the test, built with a nil payload, asked for "foo". -/
theorem lookup_of_absent_key_witness :
    EventData.lookup (NewEvent "sometag" none).data "foo" = none ∧
    ((NewEvent "sometag" none).Has "foo" = false ∧
      (NewEvent "sometag" none).Get "foo" = Value.nil) :=
  ⟨rfl, lookup_of_absent_key (NewEvent "sometag" none) "foo" rfl⟩

/-- Claim C16. When `T` has no entry and the handler list is not empty but holds only nil
handlers, `Subscribe(T, handlers...)` leaves an entry for `T` with the empty sequence;
`Subscribe(T)` with no handler leaves the dispatcher as it was. -/
theorem subscribe_nil_handlers_creates_empty_entry (d : dispatcher) (T : String)
    (handlers : List Handler) (hno : d.subscribers T = none) (hne : handlers ≠ [])
    (hnil : ∀ h ∈ handlers, h = Handler.nil) :
    (d.Subscribe T handlers).subscribers T = some [] ∧
    d.Subscribe T [] = d ∧
    (d.Subscribe T []).subscribers T = none := by
  refine ⟨?_, ?_, ?_⟩
  · rw [Subscribe_at d T handlers hne]
    have hget : d.get T = [] := by simp [dispatcher.get, hno]
    rw [hget, foldl_addHandler_absorb handlers [] (fun h hh => Or.inl (hnil h hh))]
  · simp [dispatcher.Subscribe]
  · simpa [dispatcher.Subscribe] using hno

/-- Witness of claim C16: two nil handlers subscribed to "foo" on a new dispatcher. -/
theorem subscribe_nil_handlers_creates_empty_entry_witness :
    NewDispatcher.subscribers "foo" = none ∧
    (NewDispatcher.Subscribe "foo" [Handler.nil, Handler.nil]).subscribers "foo" = some [] ∧
    NewDispatcher.Subscribe "foo" [] = NewDispatcher :=
  ⟨rfl,
   (subscribe_nil_handlers_creates_empty_entry NewDispatcher "foo" [Handler.nil, Handler.nil]
      rfl (by decide) (by decide)).1,
   (subscribe_nil_handlers_creates_empty_entry NewDispatcher "foo" [Handler.nil, Handler.nil]
      rfl (by decide) (by decide)).2.1⟩

/-- Claim C17. `Unsubscribe(T, handlers...)` with a non-empty list none of whose members is
in the sequence of `T`, also when `T` has no entry, leaves the whole dispatcher as it
was; in particular no entry for `T` appears. -/
theorem unsubscribe_unregistered_is_noop (d : dispatcher) (T : String)
    (handlers : List Handler) (hne : handlers ≠ [])
    (hnot : ∀ h ∈ handlers, h ∉ d.get T) :
    d.Unsubscribe T handlers = d ∧
    (d.Unsubscribe T handlers).subscribers T = d.subscribers T := by
  have hfold : ∀ l : List Handler, (∀ h ∈ l, h ∉ d.get T) →
      l.foldl (fun acc h => acc.unsubscribe T h) d = d := by
    intro l
    induction l with
    | nil => intro _; rfl
    | cons a rest ih =>
      intro hl
      have ha : d.unsubscribe T a = d := by
        unfold dispatcher.unsubscribe
        simp [findIdx_none_of_not_mem a (d.get T) (hl a (List.mem_cons_self _ _))]
      simp only [List.foldl_cons]
      rw [ha]
      exact ih (fun h hh => hl h (List.mem_cons_of_mem _ hh))
  have hlen : handlers.length ≠ 0 := by simpa using hne
  have heq : d.Unsubscribe T handlers = d := by
    unfold dispatcher.Unsubscribe
    rw [if_neg hlen]
    exact hfold handlers hnot
  exact ⟨heq, by rw [heq]⟩

/-- Witness of claim C17: unsubscribing handlers 2 and 3 where only handler 1 is subscribed. -/
theorem unsubscribe_unregistered_is_noop_witness :
    [Handler.ref 2, Handler.ref 3] ≠ [] ∧
    (NewDispatcher.Subscribe "foo" [Handler.ref 1]).Unsubscribe "foo"
        [Handler.ref 2, Handler.ref 3]
      = NewDispatcher.Subscribe "foo" [Handler.ref 1] :=
  ⟨by decide,
   (unsubscribe_unregistered_is_noop (NewDispatcher.Subscribe "foo" [Handler.ref 1]) "foo"
      [Handler.ref 2, Handler.ref 3] (by decide) (by decide)).1⟩

/-- Claim C18. `Subscribe(T, H...)` only appends: the new sequence of `T` is the previous
one followed by the handlers of `H` that are not nil and not yet in it, in argument order
and each once, so the previous sequence is a prefix of the new one; the entry of every
other tag, and the logger, are unchanged. -/
theorem subscribe_only_appends (d : dispatcher) (T : String) (H : List Handler) :
    (d.Subscribe T H).get T
      = d.get T ++ firstOccurrences
          ((H.filter (fun h => h ≠ Handler.nil)).filter (fun h => h ∉ d.get T)) ∧
    d.get T <+: (d.Subscribe T H).get T ∧
    (∀ t, t ≠ T → (d.Subscribe T H).subscribers t = d.subscribers t) ∧
    (d.Subscribe T H).logger = d.logger := by
  have heq : (d.Subscribe T H).get T
      = d.get T ++ firstOccurrences
          ((H.filter (fun h => h ≠ Handler.nil)).filter (fun h => h ∉ d.get T)) := by
    rw [Subscribe_get, foldl_addHandler]
  refine ⟨heq, ?_, fun t ht => Subscribe_other d T H t ht, Subscribe_logger d T H⟩
  rw [heq]
  exact List.prefix_append _ _

/-- Claim C19. In every dispatcher reached from a new one by `Subscribe`, `Unsubscribe`,
`UnsubscribeAll` (and `WithLogger`) calls with any arguments, nil handlers included, no
sequence holds a nil handler, and `PublishSync` calls no nil handler. -/
theorem reachable_sequence_has_no_nil_handler {σ : Type} (calls : List Call) (T : String)
    (hs : Handlers σ) (event : Event) (rt : Runtime σ) :
    Handler.nil ∉ (reach calls).get T ∧
    ∃ new : List Invocation,
      ((reach calls).PublishSync hs event rt).1.invocations = rt.invocations ++ new ∧
      ∀ inv ∈ new, inv.handler ≠ Handler.nil := by
  obtain ⟨new, _, h2, h3, _, _⟩ :=
    publishLoop_spec (reach calls) hs event ((reach calls).get event.Tag) rt
  refine ⟨reach_no_nil calls T, new, h2, ?_⟩
  intro inv hinv hnil
  apply reach_no_nil calls event.Tag
  rw [← h3, ← hnil]
  exact List.mem_map_of_mem _ hinv

/-- Claim C20. `PublishSync` leaves the dispatcher as it was, registry and logger, whether
or not handlers panic; publishing the same event twice in a row therefore calls the same
handlers in the same order both times. -/
theorem publishSync_leaves_dispatcher_unchanged {σ : Type} (hs : Handlers σ) (s : System σ)
    (event : Event) :
    (System.PublishSync hs s event).1.d = s.d ∧
    (∀ t, (System.PublishSync hs s event).1.d.subscribers t = s.d.subscribers t) ∧
    (System.PublishSync hs s event).1.d.logger = s.d.logger ∧
    (System.PublishSync hs s event).2 = Outcome.returned ∧
    ∃ first second : List Invocation,
      (System.PublishSync hs s event).1.rt.invocations = s.rt.invocations ++ first ∧
      (System.PublishSync hs (System.PublishSync hs s event).1 event).1.rt.invocations
        = s.rt.invocations ++ first ++ second ∧
      first.map (fun inv => inv.handler) = s.d.get event.Tag ∧
      second.map (fun inv => inv.handler) = first.map (fun inv => inv.handler) := by
  obtain ⟨first, h1, h2, h3, _, _⟩ := publishLoop_spec s.d hs event (s.d.get event.Tag) s.rt
  obtain ⟨second, _, k2, k3, _, _⟩ :=
    publishLoop_spec s.d hs event (s.d.get event.Tag) (s.d.PublishSync hs event s.rt).1
  refine ⟨rfl, fun _ => rfl, rfl, h1, first, second, h2, ?_, h3, ?_⟩
  · show (s.d.PublishSync hs event (s.d.PublishSync hs event s.rt).1).1.invocations = _
    unfold dispatcher.PublishSync at k2 ⊢
    rw [k2, h2]
  · rw [k3, h3]

end gevt
